import Mathlib

/-!
# bode-logger: a request-scoped, order-stamping logger

A shallow embedding of `src/main.go` (package `bodeLogger`) and of the parts of
Go's `log/slog`, `context` and `net/http` that its functions call.

* `Value`, `Attr`, `Arg`: slog attribute values, attributes and `...any` arguments.
* `formatUTC`: the rendering `UTC().Format(time.RFC3339Nano)` of a timestamp.
* `ReplaceAttr`: the function literal installed by `InitLogger`.
* `Logger`: a `*slog.Logger` over a JSON handler writing to standard output.
* `OrderedLogger`, `Log`, `increment`, `Debug`, `Info`, `Warn`, `Error`.
* `InitLogger`, `GetLogger`, `WithLogger`.
* `Goroutine`, `Shared`, `Config`: interleavings of concurrent calls of `Log`.

The claims follow the definitions: ordering of the stamps for sequences of calls, the same for
concurrent calls, the trailer of the middleware, the defaults of `InitLogger`, retrieval, and
the field normalizer.
-/

namespace BodeLogger

/-! ## Values and attributes -/

/-- A `time.Time`: an instant given by Unix seconds and nanoseconds within the second,
with the offset east of UTC of its location. -/
structure Time where
  sec : Int
  nsec : Nat
  offset : Int
  deriving DecidableEq, Repr

/-- A resolved `slog.Value`. `level` is the value of the built-in level attribute (a `slog.Level`),
`other` stands for every remaining non-group kind (bool, float, duration, uint, any). -/
inductive Value where
  | string (s : String)
  | int (n : Int)
  | time (t : Time)
  | level (l : Int)
  | other (descr : String)
  | group (members : List (String × Value))

/-- A `slog.Attr`: a key and a value. -/
abbrev Attr := String × Value

/-- Field `Key` of a `slog.Attr`. -/
abbrev Attr.Key (a : Attr) : String := a.1

/-- Field `Value` of a `slog.Attr`. -/
abbrev Attr.Value (a : Attr) : Value := a.2

/-- A run-time panic of the Go program. -/
inductive Panic where
  | typeAssertion (wanted : String)
  deriving DecidableEq, Repr

/-! ## Rendering of timestamps -/

/-- Year within a cycle of 400 years (from 0) and day within that year (from 0) of a day within
the cycle: whole centuries are cut off first (at most three, the fourth century has a day
more), then whole groups of four years, then whole years (at most three, the fourth year has a
day more), as `Time.Date` of the Go library does. -/
def cycleYearDay (d0 : Nat) : Nat × Nat :=
  let n100 := d0 / 36524 - d0 / 36524 / 4
  let d1 := d0 - 36524 * n100
  let n4 := d1 / 1461
  let d2 := d1 - 1461 * n4
  let n1 := d2 / 365 - d2 / 365 / 4
  (100 * n100 + 4 * n4 + n1, d2 - 365 * n1)

/-- Year and day within the year (from 0) of a count of days from 0001-01-01. -/
def yearDay (z : Int) : Int × Nat :=
  let p := cycleYearDay (z % 146097).toNat
  (400 * (z / 146097) + (p.1 : Int) + 1, p.2)

/-- The leap years of the Gregorian calendar. -/
def isLeap (y : Int) : Bool := y % 4 = 0 && (y % 100 != 0 || y % 400 = 0)

/-- Month and day of the month of a day within the year (from 0). -/
def monthDay (leap : Bool) (yday : Nat) : Nat × Nat :=
  let l := if leap then 1 else 0
  if yday < 31 then (1, yday + 1)
  else if yday < 59 + l then (2, yday - 31 + 1)
  else if yday < 90 + l then (3, yday - (59 + l) + 1)
  else if yday < 120 + l then (4, yday - (90 + l) + 1)
  else if yday < 151 + l then (5, yday - (120 + l) + 1)
  else if yday < 181 + l then (6, yday - (151 + l) + 1)
  else if yday < 212 + l then (7, yday - (181 + l) + 1)
  else if yday < 243 + l then (8, yday - (212 + l) + 1)
  else if yday < 273 + l then (9, yday - (243 + l) + 1)
  else if yday < 304 + l then (10, yday - (273 + l) + 1)
  else if yday < 334 + l then (11, yday - (304 + l) + 1)
  else (12, yday - (334 + l) + 1)

/-- The fields of a date and time of day. -/
structure Civil where
  year : Int
  month : Nat
  day : Nat
  hour : Nat
  minute : Nat
  second : Nat
  nano : Nat
  deriving DecidableEq, Repr

/-- The date and clock of `t.UTC()`: the location of `t` plays no part. -/
def Time.civilUTC (t : Time) : Civil :=
  let days := t.sec / 86400
  let rem := (t.sec % 86400).toNat
  let yd := yearDay (days + 719162)
  let md := monthDay (isLeap yd.1) yd.2
  { year := yd.1, month := md.1, day := md.2,
    hour := rem / 3600, minute := rem % 3600 / 60, second := rem % 60, nano := t.nsec }

/-- The character of a decimal digit. -/
def utod (u : Nat) : Char := Char.ofNat (48 + u)

/-- The `w` lowest decimal digits of `u`, the highest first. -/
def digitsFixed : Nat → Nat → List Nat
  | 0, _ => []
  | w + 1, u => (u / 10 ^ w % 10) :: digitsFixed w u

/-- The loop that counts the decimal digits of `u`. -/
def digitsLenAux : Nat → Nat → Nat
  | 0, _ => 1
  | fuel + 1, u => if u < 10 then 1 else digitsLenAux fuel (u / 10) + 1

/-- The number of decimal digits of `u`, 1 for 0. -/
def digitsLen (u : Nat) : Nat := digitsLenAux u u

/-- Function `appendInt` of package time: the decimal form of `x`, with a sign when negative,
padded with zeros on the left to at least `width` digits. -/
def appendInt (x : Int) (width : Nat) : List Char :=
  (if x < 0 then ['-'] else []) ++
    (digitsFixed (max width (digitsLen x.natAbs)) x.natAbs).map utod

/-- The digits without the zeros at the end. -/
def trimZeros : List Nat → List Nat
  | [] => []
  | d :: ds => if (trimZeros ds).isEmpty && d == 0 then [] else d :: trimZeros ds

/-- Function `appendNano` of package time for the layout element `.999999999`: nothing for
zero nanoseconds, else a dot and the nine digits of the nanoseconds without the zeros at the
end. -/
def appendNano (nsec : Nat) : List Char :=
  if nsec = 0 then []
  else '.' :: (trimZeros (digitsFixed (max 9 (digitsLen nsec)) nsec)).map utod

/-- The fields written in the layout `time.RFC3339Nano`, `2006-01-02T15:04:05.999999999Z07:00`,
for the zone UTC, whose designator is `Z`. -/
def Civil.layout (c : Civil) : List Char :=
  appendInt c.year 4 ++ '-' :: (appendInt c.month 2 ++ '-' :: (appendInt c.day 2 ++ 'T' ::
    (appendInt c.hour 2 ++ ':' :: (appendInt c.minute 2 ++ ':' :: (appendInt c.second 2 ++
      (appendNano c.nano ++ ['Z']))))))

/-- Rendering `t.UTC().Format(time.RFC3339Nano)`. -/
def formatUTC (t : Time) : String := String.mk t.civilUTC.layout

/-! ## The field normalizer -/

/-- Key of the built-in level attribute, `slog.LevelKey`. -/
def LevelKey : String := "level"

/-- The type assertion `a.Value.Any().(time.Time)` in its one-result form: it panics when the
dynamic type is not `time.Time`. -/
def assertTime : Value → Except Panic Time
  | .time t => .ok t
  | _ => .error (.typeAssertion "time.Time")

/-- The `ReplaceAttr` function literal of `InitLogger` (main.go lines 64-76): three `if`s in
sequence over the attribute `a`, which is updated in place. -/
def ReplaceAttr (_groups : List String) (a : Attr) : Except Panic Attr := do
  let a : Attr := if a.Key = LevelKey then ("severity", a.Value) else a
  let a : Attr := if a.Key = "msg" then ("message", a.Value) else a
  if a.Key = "time" then
    let t ← assertTime a.Value
    let timeAsString := formatUTC t
    pure (a.Key, Value.string timeAsString)
  else
    pure a

/-! ## The slog logger over a JSON handler -/

/-- The levels `slog.LevelDebug`, `slog.LevelInfo`, `slog.LevelWarn`, `slog.LevelError`. -/
def LevelDebug : Int := -4

/-- See `LevelDebug`. -/
def LevelInfo : Int := 0

/-- See `LevelDebug`. -/
def LevelWarn : Int := 4

/-- See `LevelDebug`. -/
def LevelError : Int := 8

/-- One element of an `args ...any` list: a Go string, a `slog.Attr`, or any other value, given
by the `slog.Value` that `slog.AnyValue` makes of it. -/
inductive Arg where
  | str (s : String)
  | attr (a : Attr)
  | val (v : Value)

/-- Key given by slog to a value that has no key. -/
def badKey : String := "!BADKEY"

/-- The value `slog.AnyValue` makes of an argument; a `slog.Attr` passed as a value is an
opaque `any`. -/
def anyValue : Arg → Value
  | .str s => .string s
  | .attr _ => .other "slog.Attr"
  | .val v => v

/-- The loop of `Record.Add` over `argsToAttr`: a string is a key and takes the next argument as
its value (`!BADKEY` when it is the last argument), an `Attr` is taken as it is, any other value
gets the key `!BADKEY`. -/
def argsToAttrs : List Arg → List Attr
  | [] => []
  | [.str x] => [(badKey, .string x)]
  | .str x :: v :: rest => (x, anyValue v) :: argsToAttrs rest
  | .attr a :: rest => a :: argsToAttrs rest
  | .val v :: rest => (badKey, v) :: argsToAttrs rest

/-- One output line: the fields of the JSON object, in the order written. -/
abbrev Record := List Attr

mutual
/-- The handler's `appendAttr` with `ReplaceAttr` installed: a non-group attribute goes through
`ReplaceAttr`; the members of a group are appended under the group's key, inline when the key is
empty, and a group that writes nothing is left out. -/
def appendAttr (groups : List String) (key : String) : Value → Except Panic (List Attr)
  | .group members => do
      let inner ← appendAttrs (if key = "" then groups else groups ++ [key]) members
      pure (if inner.isEmpty then [] else if key = "" then inner else [(key, .group inner)])
  | v => do
      let a ← ReplaceAttr groups (key, v)
      pure [a]
/-- The handler's `appendAttrs`: `appendAttr` on each attribute in turn. -/
def appendAttrs (groups : List String) : List (String × Value) → Except Panic (List Attr)
  | [] => pure []
  | (k, v) :: rest => do
      let x ← appendAttr groups k v
      let y ← appendAttrs groups rest
      pure (x ++ y)
end

/-- The part of `slog.HandlerOptions` that varies: the minimum level, `nil` when not set.
`ReplaceAttr` is always the function above. -/
structure HandlerOptions where
  Level : Option Int

/-- A `*slog.Logger` whose handler is a JSON handler on standard output with `ReplaceAttr`
installed: the minimum level of the handler and the fields preformatted by `With`. -/
structure slog.Logger where
  minLevel : Int
  preformatted : List Attr

/-- The logger `slog.New(slog.NewJSONHandler(os.Stdout, opts))`: the minimum level is
`LevelInfo` when `opts.Level` is nil. -/
def slog.New (opts : HandlerOptions) : slog.Logger :=
  { minLevel := opts.Level.getD LevelInfo, preformatted := [] }

/-- The handler's `Enabled`: the level is at least the minimum level. -/
def slog.Logger.Enabled (l : slog.Logger) (level : Int) : Bool :=
  decide (l.minLevel ≤ level)

/-- Method `Logger.With`: the attributes are formatted once, through `ReplaceAttr`, and written
with every later record. -/
def slog.Logger.With (l : slog.Logger) (args : List Arg) : Except Panic slog.Logger := do
  let fields ← appendAttrs [] (argsToAttrs args)
  pure { l with preformatted := l.preformatted ++ fields }

/-- The handler's `Handle`: the built-in attributes time, level and message, the preformatted
fields, then the attributes of the record. The line is written only after all of it is built. -/
def slog.Logger.Handle (l : slog.Logger) (now : Time) (level : Int) (msg : String)
    (attrs : List Attr) : Except Panic Record := do
  let t ← appendAttr [] "time" (.time now)
  let lv ← appendAttr [] LevelKey (.level level)
  let m ← appendAttr [] "msg" (.string msg)
  let rest ← appendAttrs [] attrs
  pure (t ++ lv ++ m ++ l.preformatted ++ rest)

/-- Method `Logger.Log` of slog (and its `log` helper): nothing is done when the level is not
enabled; else a record stamped with the clock reading `now` is handled and its line appended to
standard output. A panic of `ReplaceAttr` leaves standard output as it was. -/
def slog.Logger.Log (l : slog.Logger) (now : Time) (level : Int) (msg : String)
    (args : List Arg) (stdout : List Record) : Except Panic (List Record) :=
  if !l.Enabled level then pure stdout
  else do
    let r ← l.Handle now level msg (argsToAttrs args)
    pure (stdout ++ [r])

/-- Constructor `slog.Int`. -/
def slog.Int (key : String) (v : Int) : Attr := (key, .int v)

/-- Constructor `slog.String`. -/
def slog.String (key : String) (v : String) : Attr := (key, .string v)

/-! ## The ordered logger -/

/-- Struct `OrderedLogger` (main.go lines 15-19): the embedded slog logger and the counter. The
counter is a Go `int`; one request makes far fewer than `2^63` log calls, and the model takes it
as an unbounded integer. The mutex `Mu` is free between two calls made one after the other, so
it has no field here; `Shared.Mu` below models it where calls run concurrently. -/
structure OrderedLogger where
  Logger : slog.Logger
  Counter : Int

/-- What a call works on: the `OrderedLogger` its receiver points to, and the lines written to
standard output so far. -/
structure State where
  logger : OrderedLogger
  stdout : List Record

/-- How a call ends: the state it leaves, and the panic it raised if it did not return. -/
structure Result where
  state : State
  panic : Option Panic

/-- The statement `orderedLogger.Counter++`. -/
def State.bump (s : State) : State :=
  { s with logger := { s.logger with Counter := s.logger.Counter + 1 } }

/-- Function `increment` (main.go lines 34-38): lock, add one to the counter, unlock. -/
def increment (s : State) : State :=
  s.bump

/-- Method `OrderedLogger.Log` (main.go lines 21-31): the counter is incremented under the lock,
then read again for the `order_index` attribute appended to `attrs`, and the attributes are
passed on as `[]any` to the slog logger. The context is handed to slog, whose JSON handler does
not look at it. -/
def OrderedLogger.Log (now : Time) (level : Int) (msg : String) (attrs : List Attr)
    (s : State) : Result :=
  let s := s.bump
  let attrs := attrs ++ [slog.Int "order_index" s.logger.Counter]
  let anyAttrs := attrs.map Arg.attr
  match s.logger.Logger.Log now level msg anyAttrs s.stdout with
  | .ok out => { state := { s with stdout := out }, panic := none }
  | .error e => { state := s, panic := some e }

/-- Body shared by `Debug`, `Info`, `Warn` and `Error` (main.go lines 41-59), which differ in the
level only: the slog method of that level is called with `order_index` set to the counter as it
is, appended to `args`; then `increment` runs. A panic in slog is raised before `increment`. -/
def OrderedLogger.convenience (level : Int) (now : Time) (msg : String) (args : List Arg)
    (s : State) : Result :=
  match s.logger.Logger.Log now level msg
      (args ++ [Arg.attr (slog.Int "order_index" s.logger.Counter)]) s.stdout with
  | .ok out => { state := increment { s with stdout := out }, panic := none }
  | .error e => { state := s, panic := some e }

/-- Method `OrderedLogger.Debug` (main.go lines 41-44). -/
def OrderedLogger.Debug (now : Time) (msg : String) (args : List Arg) (s : State) : Result :=
  OrderedLogger.convenience LevelDebug now msg args s

/-- Method `OrderedLogger.Info` (main.go lines 46-49). -/
def OrderedLogger.Info (now : Time) (msg : String) (args : List Arg) (s : State) : Result :=
  OrderedLogger.convenience LevelInfo now msg args s

/-- Method `OrderedLogger.Warn` (main.go lines 51-54). -/
def OrderedLogger.Warn (now : Time) (msg : String) (args : List Arg) (s : State) : Result :=
  OrderedLogger.convenience LevelWarn now msg args s

/-- Method `OrderedLogger.Error` (main.go lines 56-59). -/
def OrderedLogger.Error (now : Time) (msg : String) (args : List Arg) (s : State) : Result :=
  OrderedLogger.convenience LevelError now msg args s

/-- One log call on an ordered logger, with the clock reading slog takes for its record. -/
inductive Call where
  | Log (now : Time) (level : Int) (msg : String) (attrs : List Attr)
  | Debug (now : Time) (msg : String) (args : List Arg)
  | Info (now : Time) (msg : String) (args : List Arg)
  | Warn (now : Time) (msg : String) (args : List Arg)
  | Error (now : Time) (msg : String) (args : List Arg)

/-- Running one call. -/
def Call.exec : Call → State → Result
  | .Log now level msg attrs => OrderedLogger.Log now level msg attrs
  | .Debug now msg args => OrderedLogger.Debug now msg args
  | .Info now msg args => OrderedLogger.Info now msg args
  | .Warn now msg args => OrderedLogger.Warn now msg args
  | .Error now msg args => OrderedLogger.Error now msg args

/-- Calls made one after the other by one goroutine: a panic ends the sequence. -/
def run : List Call → State → Result
  | [], s => { state := s, panic := none }
  | c :: rest, s =>
    match c.exec s with
    | { state := s1, panic := none } => run rest s1
    | r => r

/-- The call is the generic `Log`. -/
def Call.isGeneric : Call → Bool
  | .Log .. => true
  | _ => false

/-- The level of the record a call asks for. -/
def Call.level : Call → Int
  | .Log _ level _ _ => level
  | .Debug .. => LevelDebug
  | .Info .. => LevelInfo
  | .Warn .. => LevelWarn
  | .Error .. => LevelError

/-- The `...any` arguments of a convenience call; a generic call has typed attributes. -/
def Call.args : Call → List Arg
  | .Log _ _ _ attrs => attrs.map Arg.attr
  | .Debug _ _ args => args
  | .Info _ _ args => args
  | .Warn _ _ args => args
  | .Error _ _ args => args

/-- The argument list ends in a string at a key position, a key with no value after it. -/
def danglingKey : List Arg → Bool
  | [] => false
  | [.str _] => true
  | .str _ :: _ :: rest => danglingKey rest
  | .attr _ :: rest => danglingKey rest
  | .val _ :: rest => danglingKey rest

/-- The `order_index` of an output line: the integer of its last top-level field with that key
(the logger appends its stamp after the attributes of the caller). -/
def Record.orderIndex (r : Record) : Option Int :=
  match r.reverse.find? (fun a => a.1 == "order_index") with
  | some (_, .int n) => some n
  | _ => none

/-! ## Contexts and requests -/

/-- A context key: a Go string, or a value of any other comparable type. -/
inductive Key where
  | str (s : String)
  | other (typeName : String) (id : Nat)
  deriving DecidableEq, Repr

/-- The address a `*OrderedLogger` holds. -/
abbrev Addr := Nat

/-- A value stored in a context: a `*OrderedLogger` (possibly the nil pointer), or a value of
another dynamic type. -/
inductive CtxValue where
  | orderedLogger (p : Option Addr)
  | other (typeName : String)
  deriving DecidableEq, Repr

/-- A `context.Context` of the standard library: the background context, a value context, or a
cancellation or deadline context, which hands `Value` on to its parent. -/
inductive Context where
  | background
  | withValue (parent : Context) (key : Key) (val : CtxValue)
  | withCancel (parent : Context)
  deriving DecidableEq, Repr

/-- Function `context.WithValue`. -/
def Context.WithValue (parent : Context) (key : Key) (val : CtxValue) : Context :=
  .withValue parent key val

/-- Method `Context.Value`: the innermost value stored under the key, nil when there is none. -/
def Context.Value : Context → Key → Option CtxValue
  | .background, _ => none
  | .withValue parent k v, key => if k = key then some v else parent.Value key
  | .withCancel parent, key => parent.Value key

/-- An `http.Header`: a map from canonical header names to their values. -/
abbrev Header := List (String × List String)

/-- Method `Header.Get`: the first value stored under the key, the empty string when there is
none. The three keys main.go asks for are in canonical form. -/
def Header.Get (h : Header) (key : String) : String :=
  match h.lookup key with
  | some (v :: _) => v
  | _ => ""

/-- The parts of an `*http.Request` main.go reads: its header and its context field. -/
structure Request where
  Header : Header
  ctx : Option Context

/-- Method `Request.Context`: the context of the request, the background context when the field
is nil. -/
def Request.Context (r : Request) : Context :=
  r.ctx.getD .background

/-- Method `Request.WithContext`: a copy of the request with the context replaced. -/
def Request.WithContext (r : Request) (ctx : BodeLogger.Context) : Request :=
  { r with ctx := some ctx }

/-- Variable `LoggerKeyName` (main.go line 12). -/
def LoggerKeyName : String := "logger"

/-! ## Construction, retrieval, middleware -/

/-- Function `InitLogger` (main.go lines 62-86): a JSON handler with `ReplaceAttr` and no level
option, and the three header values as attributes of `With`. `Counter` is left at its zero
value. -/
def InitLogger (request : Request) : Except Panic OrderedLogger := do
  let jsonHandler : HandlerOptions := { Level := none }
  let logger ← (slog.New jsonHandler).With [
    Arg.attr (slog.String "session_id" (request.Header.Get "X-Session-Id")),
    Arg.attr (slog.String "test_id" (request.Header.Get "X-Test-Id")),
    Arg.attr (slog.String "request_id" (request.Header.Get "X-Request-Id"))]
  pure { Logger := logger, Counter := 0 }

/-- The type assertion `x.(*OrderedLogger)` in its two-result form: the nil pointer and `false`
when `x` is nil or of another dynamic type. -/
def assertOrderedLogger : Option CtxValue → Option Addr × Bool
  | some (.orderedLogger p) => (p, true)
  | _ => (none, false)

/-- Function `GetLogger` (main.go lines 88-92), on a request pointer that is not nil: the value
under `LoggerKeyName` in the context of the request, through the two-result type assertion. -/
def GetLogger (request : Request) : Option Addr × Bool :=
  let (logger, loggerOk) := assertOrderedLogger (request.Context.Value (.str LoggerKeyName))
  if !loggerOk then (none, false)
  else (logger, true)

/-- A wrapped `http.Handler`, by the log calls its `ServeHTTP` makes, one after the other, on the
ordered logger of the request it is given. A call that panics ends the handler: it does not
return. -/
abbrev Handler := Request → List Call

/-- How serving one request through the middleware ends: standard output, the logger built for
the request, and the panic that escaped, if any. -/
structure Served where
  stdout : List Record
  logger : Option OrderedLogger
  panic : Option Panic

/-- The handler function `WithLogger()(next)` (main.go lines 94-104) on one request: `addr` is
the address of the logger `InitLogger` allocates, `tEnd` the clock reading of the trailer. A
panic of `next` escapes, and the trailer is then not written. -/
def WithLogger (next : Handler) (addr : Addr) (tEnd : Time) (request : Request)
    (stdout : List Record) : Served :=
  let ctx := request.Context
  match InitLogger request with
  | .error e => { stdout := stdout, logger := none, panic := some e }
  | .ok logger =>
    let newRequest :=
      request.WithContext (ctx.WithValue (.str LoggerKeyName) (.orderedLogger (some addr)))
    match run (next newRequest) { logger := logger, stdout := stdout } with
    | { state := s, panic := some e } =>
      { stdout := s.stdout, logger := some s.logger, panic := some e }
    | { state := s, panic := none } =>
      let r := OrderedLogger.Info tEnd "end-of-request" [] s
      { stdout := r.state.stdout, logger := some r.state.logger, panic := r.panic }

/-! ## Concurrent calls of `Log` -/

/-- Where a goroutine stands in `OrderedLogger.Log`: before `Mu.Lock()` (line 22), holding the
lock before `Counter++` (line 23), before `Mu.Unlock()` (line 24), before the read of `Counter`
for the attribute (line 25), before the call of the slog logger with the attribute built (line
30), returned, or panicked. -/
inductive Pc where
  | start
  | locked
  | incremented
  | unlocked
  | stamped (idx : Int)
  | done
  | panicked (e : Panic)
  deriving DecidableEq, Repr

/-- A goroutine running one call of `OrderedLogger.Log`: the arguments of the call, the clock
reading slog takes, and the place it has reached. -/
structure Goroutine where
  now : Time
  level : Int
  msg : String
  attrs : List Attr
  pc : Pc

/-- What the goroutines share: the logger, whether its mutex `Mu` is held, and standard output
(the JSON handler writes each line under its own lock, in one piece). -/
structure Shared where
  logger : OrderedLogger
  Mu : Bool
  stdout : List Record

/-- One step of a goroutine, `none` when it cannot move: it is blocked in `Mu.Lock()`, or has
ended. -/
def Goroutine.step (g : Goroutine) (sh : Shared) : Option (Goroutine × Shared) :=
  match g.pc with
  | .start => if sh.Mu then none else some ({ g with pc := .locked }, { sh with Mu := true })
  | .locked =>
    some ({ g with pc := .incremented },
      { sh with logger := { sh.logger with Counter := sh.logger.Counter + 1 } })
  | .incremented => some ({ g with pc := .unlocked }, { sh with Mu := false })
  | .unlocked => some ({ g with pc := .stamped sh.logger.Counter }, sh)
  | .stamped idx =>
    match sh.logger.Logger.Log g.now g.level g.msg
        ((g.attrs ++ [slog.Int "order_index" idx]).map Arg.attr) sh.stdout with
    | .ok out => some ({ g with pc := .done }, { sh with stdout := out })
    | .error e => some ({ g with pc := .panicked e }, sh)
  | .done => none
  | .panicked _ => none

/-- The goroutines and what they share. -/
structure Config where
  shared : Shared
  goroutines : List Goroutine

/-- The scheduler lets goroutine `i` make its next step. -/
def Config.step (c : Config) (i : Nat) : Option Config :=
  match c.goroutines.get? i with
  | none => none
  | some g =>
    match g.step c.shared with
    | none => none
    | some (g1, sh1) => some { shared := sh1, goroutines := c.goroutines.set i g1 }

/-- An interleaving: the goroutines to step, in order. -/
def Config.exec : List Nat → Config → Option Config
  | [], c => some c
  | i :: rest, c =>
    match c.step i with
    | none => none
    | some c1 => Config.exec rest c1

/-- Every goroutine has returned. -/
def Config.finished (c : Config) : Bool :=
  c.goroutines.all (fun g => g.pc == .done)

/-- The start of concurrent calls on one logger: each call in its own goroutine, the mutex free. -/
def Config.init (l : OrderedLogger) (stdout : List Record)
    (calls : List (Time × Int × String × List Attr)) : Config :=
  { shared := { logger := l, Mu := false, stdout := stdout },
    goroutines := calls.map
      (fun c => { now := c.1, level := c.2.1, msg := c.2.2.1, attrs := c.2.2.2, pc := .start }) }

/-! ## Auxiliary definitions of the statements -/

/-- The three built-in fields of a line, as `ReplaceAttr` leaves them. -/
def builtins (now : Time) (level : Int) (msg : String) : List Attr :=
  [("time", .string (formatUTC now)), ("severity", .level level), ("message", .string msg)]

/-- The stamps expected of calls numbered from `first`: a call contributes its number when its
level is enabled. -/
def stampsFrom (l : slog.Logger) (first : Int) : List Call → List (Option Int)
  | [] => []
  | c :: rest =>
    (if l.Enabled c.level then [some first] else []) ++ stampsFrom l (first + 1) rest

/-- What one returning call does, `d` being the distance of its stamp from the counter it found:
the counter goes up by one, the slog logger stays, and one line stamped `Counter + d` is written
when the level is enabled, none otherwise. -/
def StepsBy (d : Int) (c : Call) : Prop :=
  ∀ s : State, (c.exec s).panic = none →
    (c.exec s).state.logger.Counter = s.logger.Counter + 1 ∧
    (c.exec s).state.logger.Logger = s.logger.Logger ∧
    ∃ recs, (c.exec s).state.stdout = s.stdout ++ recs ∧
      recs.map Record.orderIndex =
        if s.logger.Logger.Enabled c.level then [some (s.logger.Counter + d)] else []

/-- The three attributes `InitLogger` passes to `With`, with the header values of the request. -/
def defaultAttrs (request : Request) : List Attr :=
  [("session_id", .string (request.Header.Get "X-Session-Id")),
   ("test_id", .string (request.Header.Get "X-Test-Id")),
   ("request_id", .string (request.Header.Get "X-Request-Id"))]

/-- The request `WithLogger` hands to the wrapped handler: the logger at `addr` is bound under
`LoggerKeyName` in its context. -/
def installed (request : Request) (addr : Addr) : Request :=
  request.WithContext
    (request.Context.WithValue (.str LoggerKeyName) (.orderedLogger (some addr)))

/-- The logger `InitLogger` returns for a request: minimum level `LevelInfo`, the three header
values preformatted, the counter at 0. -/
def freshLogger (request : Request) : OrderedLogger :=
  { Logger := { minLevel := LevelInfo, preformatted := defaultAttrs request }, Counter := 0 }

/-- The run of the wrapped handler inside `WithLogger`: its calls, on the logger built for the
request, with the request it is handed. -/
def handlerRun (next : Handler) (addr : Addr) (request : Request) (stdout : List Record) :
    Result :=
  run (next (installed request addr)) { logger := freshLogger request, stdout := stdout }

/-- The innermost binding of a key in a context chain: `Binds c k v` when, going from `c` to
its parents, the first value context whose key is `k` holds `v`. -/
inductive Binds : Context → Key → CtxValue → Prop where
  | here (parent : Context) (k : Key) (v : CtxValue) : Binds (.withValue parent k v) k v
  | skip (parent : Context) (k1 k : Key) (v1 v : CtxValue) :
      k1 ≠ k → Binds parent k v → Binds (.withValue parent k1 v1) k v
  | cancel (parent : Context) (k : Key) (v : CtxValue) :
      Binds parent k v → Binds (.withCancel parent) k v

/-- Days of a month of the Gregorian calendar. -/
def monthLength (leap : Bool) (m : Nat) : Nat :=
  match m with
  | 2 => if leap then 29 else 28
  | 4 => 30
  | 6 => 30
  | 9 => 30
  | 11 => 30
  | _ => 31

/-- Days of month `m` of year `y`. -/
def daysInMonth (y : Int) (m : Nat) : Nat := monthLength (isLeap y) m

/-- Days of year `y`. -/
def daysInYear (y : Int) : Nat := if isLeap y then 366 else 365

/-- Days of year `y` before the first day of month `m`: the lengths of the months before it. -/
def daysBeforeMonth (y : Int) (m : Nat) : Nat :=
  ((List.range (m - 1)).map (fun k => daysInMonth y (k + 1))).sum

/-- Days from 1970-01-01 to the first day of year `y`: 365 for each year in between and one
more for each leap year, the leap years up to `y - 1` being those divisible by 4, less those
divisible by 100, plus those divisible by 400 (719162 days lie between 0001-01-01 and
1970-01-01). -/
def daysBeforeYear (y : Int) : Int :=
  365 * (y - 1) + ((y - 1) / 4 - (y - 1) / 100 + (y - 1) / 400) - 719162

/-- The fields are those of a date of the calendar and of a time of day. -/
def Civil.valid (c : Civil) : Prop :=
  1 ≤ c.month ∧ c.month ≤ 12 ∧ 1 ≤ c.day ∧ c.day ≤ daysInMonth c.year c.month ∧
  c.hour < 24 ∧ c.minute < 60 ∧ c.second < 60 ∧ c.nano < 1000000000

/-- The Unix seconds of the instant that the fields name in UTC. -/
def Civil.unixSeconds (c : Civil) : Int :=
  (daysBeforeYear c.year + daysBeforeMonth c.year c.month + ((c.day - 1 : Nat) : Int)) * 86400 +
    c.hour * 3600 + c.minute * 60 + c.second

/-- The value of a character that is a decimal digit. -/
def digitValue (c : Char) : Option Nat :=
  if '0' ≤ c ∧ c ≤ '9' then some (c.toNat - 48) else none

/-- Reads exactly `k` digits: their value and the characters after them. -/
def readDigits : Nat → List Char → Option (Nat × List Char)
  | 0, cs => some (0, cs)
  | _ + 1, [] => none
  | k + 1, c :: cs =>
    match digitValue c, readDigits k cs with
    | some d, some (v, rest) => some (d * 10 ^ k + v, rest)
    | _, _ => none

/-- Reads the character `c`. -/
def expect (c : Char) : List Char → Option (List Char)
  | [] => none
  | x :: cs => if x = c then some cs else none

/-- The digits at the head of the characters, and the characters after them. -/
def spanDigits : List Char → List Nat × List Char
  | [] => ([], [])
  | c :: cs =>
    match digitValue c with
    | some d => (d :: (spanDigits cs).1, (spanDigits cs).2)
    | none => ([], c :: cs)

/-- The nanoseconds that the digits of a fraction of a second name, `k` being the number of
places down to the nanosecond. -/
def fracValue : Nat → List Nat → Nat
  | _, [] => 0
  | 0, _ :: _ => 0
  | k + 1, d :: ds => d * 10 ^ k + fracValue k ds

/-- Reads the fraction of the seconds in its shortest form: nothing, or a dot and one to nine
digits of which the last is not 0. -/
def readFraction : List Char → Option (Nat × List Char)
  | [] => some (0, [])
  | c :: cs =>
    if c = '.' then
      let ds := (spanDigits cs).1
      if ds ≠ [] ∧ ds.length ≤ 9 ∧ ds.getLast? ≠ some 0 then
        some (fracValue 9 ds, (spanDigits cs).2)
      else none
    else some (0, c :: cs)

/-- Reader of an RFC 3339 date-time in UTC, following the grammar of RFC 3339, section 5.6:
four digits of the year, `-`, two of the month, `-`, two of the day, `T`, two digits each of
hour, minute and second separated by `:`, the fraction, and the designator `Z`. -/
def parseRFC3339UTC (cs : List Char) : Option Civil := do
  let (year, cs) ← readDigits 4 cs
  let cs ← expect '-' cs
  let (month, cs) ← readDigits 2 cs
  let cs ← expect '-' cs
  let (day, cs) ← readDigits 2 cs
  let cs ← expect 'T' cs
  let (hour, cs) ← readDigits 2 cs
  let cs ← expect ':' cs
  let (minute, cs) ← readDigits 2 cs
  let cs ← expect ':' cs
  let (second, cs) ← readDigits 2 cs
  let (nano, cs) ← readFraction cs
  match cs with
  | ['Z'] => some { year := year, month := month, day := day, hour := hour, minute := minute,
                    second := second, nano := nano }
  | _ => none

mutual
/-- A field of a line has no reserved key: when it is not a group its key is neither `level`
nor `msg`, when it is a group its members have no reserved key. -/
def fieldClean (key : String) : Value → Bool
  | .group members => fieldsClean members
  | _ => key != "level" && key != "msg"
/-- No field of the list has a reserved key. -/
def fieldsClean : List (String × Value) → Bool
  | [] => true
  | (k, v) :: rest => fieldClean k v && fieldsClean rest
end

/-- Reference definition of the field normalizer, following the words of the specification: a
`level` key becomes `severity`, a `msg` key becomes `message`, a `time` key holding a timestamp
keeps its key and gets the UTC RFC3339 nanosecond rendering as a string value, every other key
passes unchanged. The words give no result for a `time` key that holds no timestamp. -/
def normalizeSpec (a : Attr) : Option Attr :=
  if a.1 = "level" then some ("severity", a.2)
  else if a.1 = "msg" then some ("message", a.2)
  else if a.1 = "time" then
    match a.2 with
    | .time t => some ("time", .string (formatUTC t))
    | _ => none
  else some a

/-- Whether a goroutine has done its `Counter++`: 1 when it has, 0 before. -/
def Goroutine.increments (g : Goroutine) : Int :=
  match g.pc with
  | .start => 0
  | .locked => 0
  | _ => 1

/-! ## Sample inputs -/

/-- A request with a session id and a request id and no test id. -/
def sampleRequest : Request :=
  { Header := [("X-Session-Id", ["s1"]), ("X-Request-Id", ["r1"])], ctx := none }

/-- The logger `InitLogger` builds for `sampleRequest`. -/
def sampleLogger : OrderedLogger :=
  { Logger :=
      { minLevel := 0,
        preformatted :=
          [("session_id", .string "s1"), ("test_id", .string ""), ("request_id", .string "r1")] },
    Counter := 0 }

/-- The clock reading 1970-01-01T00:00:00Z. -/
def epoch : Time := { sec := 0, nsec := 0, offset := 0 }

/-- A wrapped handler that makes one `Info` call on the logger of its request. -/
def sampleHandler : Handler :=
  fun _ => [Call.Info epoch "handled" []]

/-! ## Lemmas on the slog model -/

theorem ReplaceAttr_plain (groups : List String) (k : String) (v : Value)
    (h1 : k ≠ "level") (h2 : k ≠ "msg") (h3 : k ≠ "time") :
    ReplaceAttr groups (k, v) = .ok (k, v) := by
  simp [ReplaceAttr, LevelKey, Attr.Key, h1, h2, h3]
  rfl

theorem appendAttr_time (groups : List String) (now : Time) :
    appendAttr groups "time" (.time now) = .ok [("time", .string (formatUTC now))] := rfl

theorem appendAttr_level (groups : List String) (level : Int) :
    appendAttr groups LevelKey (.level level) = .ok [("severity", .level level)] := rfl

theorem appendAttr_msg (groups : List String) (msg : String) :
    appendAttr groups "msg" (.string msg) = .ok [("message", .string msg)] := rfl

theorem appendAttrs_append (groups : List String) (xs ys : List Attr) :
    appendAttrs groups (xs ++ ys) =
      (do let x ← appendAttrs groups xs
          let y ← appendAttrs groups ys
          pure (x ++ y)) := by
  induction xs with
  | nil =>
    simp only [List.nil_append, appendAttrs]
    cases appendAttrs groups ys <;> rfl
  | cons a rest ih =>
    obtain ⟨k, v⟩ := a
    show appendAttrs groups ((k, v) :: (rest ++ ys)) = _
    rw [appendAttrs, appendAttrs, ih]
    cases appendAttr groups k v with
    | error e => rfl
    | ok x =>
      cases appendAttrs groups rest with
      | error e => rfl
      | ok y =>
        cases appendAttrs groups ys with
        | error e => rfl
        | ok z => simp [bind, Except.bind, pure, Except.pure]

theorem appendAttrs_stamp (groups : List String) (xs : List Attr) (n : Int) :
    appendAttrs groups (xs ++ [slog.Int "order_index" n]) =
      (appendAttrs groups xs).map (fun fields => fields ++ [("order_index", .int n)]) := by
  rw [appendAttrs_append]
  have h : appendAttrs groups [slog.Int "order_index" n] = .ok [("order_index", .int n)] := rfl
  rw [h]
  cases appendAttrs groups xs <;> rfl

theorem argsToAttrs_attrs (xs : List Attr) : argsToAttrs (xs.map Arg.attr) = xs := by
  induction xs with
  | nil => rfl
  | cons a rest ih => simp [argsToAttrs, ih]

theorem argsToAttrs_stamp : ∀ (args : List Arg) (a : Attr), danglingKey args = false →
    argsToAttrs (args ++ [Arg.attr a]) = argsToAttrs args ++ [a]
  | [], a, _ => rfl
  | [.str _], _, h => by simp [danglingKey] at h
  | .str x :: v :: rest, a, h => by
    have ih := argsToAttrs_stamp rest a (by simpa [danglingKey] using h)
    simp [argsToAttrs, ih]
  | .attr b :: rest, a, h => by
    have ih := argsToAttrs_stamp rest a (by simpa [danglingKey] using h)
    simp [argsToAttrs, ih]
  | .val v :: rest, a, h => by
    have ih := argsToAttrs_stamp rest a (by simpa [danglingKey] using h)
    simp [argsToAttrs, ih]

theorem Handle_eq (l : slog.Logger) (now : Time) (level : Int) (msg : String)
    (attrs : List Attr) :
    l.Handle now level msg attrs =
      (appendAttrs [] attrs).map (fun rest => builtins now level msg ++ l.preformatted ++ rest) := by
  unfold slog.Logger.Handle
  rw [appendAttr_time, appendAttr_level, appendAttr_msg]
  cases appendAttrs [] attrs <;> rfl

theorem orderIndex_stamp (fields : List Attr) (n : Int) :
    Record.orderIndex (fields ++ [("order_index", .int n)]) = some n := by
  simp [Record.orderIndex, List.find?]

/-! ## Lemmas on single calls and on sequences of calls -/

theorem Log_exec (now : Time) (level : Int) (msg : String) (attrs : List Attr) (s : State) :
    OrderedLogger.Log now level msg attrs s =
      if s.logger.Logger.Enabled level = false then { state := s.bump, panic := none }
      else match appendAttrs [] attrs with
        | .ok rest =>
          { state := { s.bump with stdout := s.stdout ++
              [builtins now level msg ++ s.logger.Logger.preformatted ++ rest ++
                [("order_index", .int (s.logger.Counter + 1))]] },
            panic := none }
        | .error e => { state := s.bump, panic := some e } := by
  unfold OrderedLogger.Log slog.Logger.Log
  simp only [argsToAttrs_attrs, Handle_eq, appendAttrs_stamp]
  cases h : s.logger.Logger.Enabled level
  · simp [State.bump, h, pure, Except.pure]
  · cases h2 : appendAttrs [] attrs with
    | error e => simp [State.bump, h, h2, bind, Except.bind, Except.map]
    | ok rest =>
      simp [State.bump, h, h2, bind, Except.bind, Except.map, pure, Except.pure]

theorem convenience_exec (level : Int) (now : Time) (msg : String) (args : List Arg) (s : State)
    (hargs : danglingKey args = false) :
    OrderedLogger.convenience level now msg args s =
      if s.logger.Logger.Enabled level = false then { state := increment s, panic := none }
      else match appendAttrs [] (argsToAttrs args) with
        | .ok rest =>
          { state := increment { s with stdout := s.stdout ++
              [builtins now level msg ++ s.logger.Logger.preformatted ++ rest ++
                [("order_index", .int s.logger.Counter)]] },
            panic := none }
        | .error e => { state := s, panic := some e } := by
  unfold OrderedLogger.convenience slog.Logger.Log
  have hs : argsToAttrs (args ++ [Arg.attr (slog.Int "order_index" s.logger.Counter)]) =
      argsToAttrs args ++ [slog.Int "order_index" s.logger.Counter] :=
    argsToAttrs_stamp args _ hargs
  simp only [hs, Handle_eq, appendAttrs_stamp]
  cases h : s.logger.Logger.Enabled level
  · simp [h, pure, Except.pure]
  · cases h2 : appendAttrs [] (argsToAttrs args) with
    | error e => simp [h, h2, bind, Except.bind, Except.map]
    | ok rest =>
      simp [h, h2, bind, Except.bind, Except.map, pure, Except.pure]

theorem run_cons (c : Call) (rest : List Call) (s : State) :
    run (c :: rest) s =
      if (c.exec s).panic = none then run rest (c.exec s).state else c.exec s := by
  rcases h : c.exec s with ⟨s1, _ | e⟩
  · simp [run, h]
  · simp [run, h]

theorem Log_step (now : Time) (level : Int) (msg : String) (attrs : List Attr) :
    StepsBy 1 (Call.Log now level msg attrs) := by
  intro s hret
  have hexec : (Call.Log now level msg attrs).exec s = OrderedLogger.Log now level msg attrs s :=
    rfl
  rw [Log_exec] at hexec
  cases hen : s.logger.Logger.Enabled level with
  | false =>
    simp only [hen, if_true] at hexec
    rw [hexec]
    exact ⟨rfl, rfl, [], by simp [State.bump], by simp [Call.level, hen]⟩
  | true =>
    simp only [hen, Bool.true_eq_false, if_false] at hexec
    cases hap : appendAttrs [] attrs with
    | error e =>
      simp only [hap] at hexec
      rw [hexec] at hret
      simp at hret
    | ok fields =>
      simp only [hap] at hexec
      rw [hexec]
      refine ⟨rfl, rfl, [builtins now level msg ++ s.logger.Logger.preformatted ++ fields ++
        [("order_index", Value.int (s.logger.Counter + 1))]], rfl, ?_⟩
      simp only [List.map_cons, List.map_nil, orderIndex_stamp, Call.level, hen, if_true]

theorem convenience_step (level : Int) (now : Time) (msg : String) (args : List Arg)
    (hargs : danglingKey args = false) (s : State)
    (hret : (OrderedLogger.convenience level now msg args s).panic = none) :
    (OrderedLogger.convenience level now msg args s).state.logger.Counter =
        s.logger.Counter + 1 ∧
    (OrderedLogger.convenience level now msg args s).state.logger.Logger = s.logger.Logger ∧
    ∃ recs, (OrderedLogger.convenience level now msg args s).state.stdout = s.stdout ++ recs ∧
      recs.map Record.orderIndex =
        if s.logger.Logger.Enabled level then [some (s.logger.Counter + 0)] else [] := by
  have hexec := convenience_exec level now msg args s hargs
  cases hen : s.logger.Logger.Enabled level with
  | false =>
    simp only [hen, if_true] at hexec
    rw [hexec]
    exact ⟨rfl, rfl, [], by simp [increment, State.bump], by simp⟩
  | true =>
    simp only [hen, Bool.true_eq_false, if_false] at hexec
    cases hap : appendAttrs [] (argsToAttrs args) with
    | error e =>
      simp only [hap] at hexec
      rw [hexec] at hret
      simp at hret
    | ok fields =>
      simp only [hap] at hexec
      rw [hexec]
      refine ⟨rfl, rfl, [builtins now level msg ++ s.logger.Logger.preformatted ++ fields ++
        [("order_index", Value.int s.logger.Counter)]], rfl, ?_⟩
      simp only [List.map_cons, List.map_nil, orderIndex_stamp, if_true, add_zero]

theorem run_steps (d : Int) (calls : List Call) : ∀ (s : State),
    (∀ c ∈ calls, StepsBy d c) → (run calls s).panic = none →
    (run calls s).state.logger.Counter = s.logger.Counter + calls.length ∧
    (run calls s).state.logger.Logger = s.logger.Logger ∧
    ∃ recs, (run calls s).state.stdout = s.stdout ++ recs ∧
      recs.map Record.orderIndex = stampsFrom s.logger.Logger (s.logger.Counter + d) calls := by
  induction calls with
  | nil =>
    intro s _ _
    exact ⟨by simp [run], rfl, [], by simp [run], rfl⟩
  | cons c rest ih =>
    intro s hall hret
    have hrest : ∀ c ∈ rest, StepsBy d c := fun c hc => hall c (List.mem_cons_of_mem _ hc)
    rw [run_cons] at hret ⊢
    by_cases hp : (c.exec s).panic = none
    · rw [if_pos hp] at hret ⊢
      obtain ⟨c1, c2, recs1, c3, c4⟩ := hall c (List.mem_cons_self _ _) s hp
      obtain ⟨h1, h2, recs, h3, h4⟩ := ih _ hrest hret
      refine ⟨?_, h2.trans c2, recs1 ++ recs, ?_, ?_⟩
      · rw [h1, c1]; simp only [List.length_cons]; push_cast; ring
      · rw [h3, c3, List.append_assoc]
      · rw [List.map_append, c4, h4, c2, c1]
        have : s.logger.Counter + 1 + d = s.logger.Counter + d + 1 := by ring
        rw [this]
        rfl
    · rw [if_neg hp] at hret
      exact absurd hret hp

theorem stampsFrom_enumFrom (l : slog.Logger) (calls : List Call) : ∀ n : Nat,
    stampsFrom l (n : Int) calls =
      ((calls.enumFrom n).filter (fun p => l.Enabled p.2.level)).map
        (fun p => some (p.1 : Int)) := by
  induction calls with
  | nil => intro n; rfl
  | cons c rest ih =>
    intro n
    have h := ih (n + 1)
    push_cast at h
    simp only [stampsFrom, List.enumFrom_cons, List.filter_cons, h]
    cases l.Enabled c.level <;> simp

theorem stampsFrom_all (l : slog.Logger) (calls : List Call)
    (hen : ∀ c ∈ calls, l.Enabled c.level = true) : ∀ n : Nat,
    stampsFrom l (n : Int) calls =
      (List.range' n calls.length).map (fun i => some (i : Int)) := by
  induction calls with
  | nil => intro n; rfl
  | cons c rest ih =>
    intro n
    have h := ih (fun c hc => hen c (List.mem_cons_of_mem _ hc)) (n + 1)
    push_cast at h
    simp [stampsFrom, hen c (List.mem_cons_self _ _), h, List.range'_succ]

/-- Every call that returns, whatever its arguments, moves the counter up by exactly one. -/
theorem exec_counter (c : Call) (s : State) (hret : (c.exec s).panic = none) :
    (c.exec s).state.logger.Counter = s.logger.Counter + 1 := by
  have conv : ∀ (level : Int) (now : Time) (msg : String) (args : List Arg),
      (OrderedLogger.convenience level now msg args s).panic = none →
      (OrderedLogger.convenience level now msg args s).state.logger.Counter =
        s.logger.Counter + 1 := by
    intro level now msg args
    unfold OrderedLogger.convenience
    cases s.logger.Logger.Log now level msg
        (args ++ [Arg.attr (slog.Int "order_index" s.logger.Counter)]) s.stdout with
    | ok out => intro _; rfl
    | error e => intro h; simp at h
  cases c with
  | Log now level msg attrs =>
    have h : (OrderedLogger.Log now level msg attrs s).state.logger.Counter =
        s.logger.Counter + 1 := by
      unfold OrderedLogger.Log
      dsimp only
      split <;> rfl
    exact h
  | Debug now msg args => exact conv LevelDebug now msg args hret
  | Info now msg args => exact conv LevelInfo now msg args hret
  | Warn now msg args => exact conv LevelWarn now msg args hret
  | Error now msg args => exact conv LevelError now msg args hret

/-! ## The claims on sequences of calls -/

/-- C1 (amended): sequential calls of the generic `Log` that all return, on a logger whose counter
starts at 0, leave the counter at the number of calls, and write one line for each call whose
level the slog handler enables, stamped with the position of that call counted from 1; when
every level is enabled the stamps of the lines are exactly 1, 2, ..., N in call order. -/
theorem Log_stamps_positions (l : OrderedLogger) (out0 : List Record) (calls : List Call)
    (h0 : l.Counter = 0) (hgen : ∀ c ∈ calls, c.isGeneric = true)
    (hret : (run calls { logger := l, stdout := out0 }).panic = none) :
    (run calls { logger := l, stdout := out0 }).state.logger.Counter = calls.length ∧
    ∃ recs, (run calls { logger := l, stdout := out0 }).state.stdout = out0 ++ recs ∧
      recs.map Record.orderIndex =
        ((calls.enumFrom 1).filter (fun p => l.Logger.Enabled p.2.level)).map
          (fun p => some (p.1 : Int)) ∧
      ((∀ c ∈ calls, l.Logger.Enabled c.level = true) →
        recs.map Record.orderIndex =
          (List.range' 1 calls.length).map (fun i => some (i : Int))) := by
  have hsteps : ∀ c ∈ calls, StepsBy 1 c := by
    intro c hc
    have hg := hgen c hc
    cases c with
    | Log now level msg attrs => exact Log_step now level msg attrs
    | Debug now msg args => simp [Call.isGeneric] at hg
    | Info now msg args => simp [Call.isGeneric] at hg
    | Warn now msg args => simp [Call.isGeneric] at hg
    | Error now msg args => simp [Call.isGeneric] at hg
  obtain ⟨h1, _, recs, h3, h4⟩ := run_steps 1 calls _ hsteps hret
  simp only [h0, zero_add] at h1 h4
  refine ⟨h1, recs, h3, ?_, ?_⟩
  · rw [h4]; exact stampsFrom_enumFrom l.Logger calls 1
  · intro hen
    rw [h4]; exact stampsFrom_all l.Logger calls hen 1

/-- Witness of `Log_stamps_positions`: a call below the level of the handler between two calls
at info and error level, on the logger of `sampleRequest`. -/
theorem Log_stamps_positions_witness :
    (run [Call.Log epoch LevelInfo "a" [], Call.Log epoch LevelDebug "b" [],
        Call.Log epoch LevelError "c" [("k", .int 7)]]
      { logger := sampleLogger, stdout := [] }).state.logger.Counter = (3 : Nat) ∧
    ∃ recs, (run [Call.Log epoch LevelInfo "a" [], Call.Log epoch LevelDebug "b" [],
        Call.Log epoch LevelError "c" [("k", .int 7)]]
      { logger := sampleLogger, stdout := [] }).state.stdout = [] ++ recs ∧
      recs.map Record.orderIndex = [some 1, some 3] := by
  obtain ⟨h1, recs, h2, h3, _⟩ := Log_stamps_positions sampleLogger []
    [Call.Log epoch LevelInfo "a" [], Call.Log epoch LevelDebug "b" [],
      Call.Log epoch LevelError "c" [("k", .int 7)]] rfl (by decide) (by decide)
  exact ⟨h1, recs, h2, h3⟩

/-- C1, counterexample: on the logger `InitLogger` builds, a generic `Log` call at debug level
returns and writes no line, so one call does not give one record stamped 1. -/
theorem Log_debug_writes_nothing :
    InitLogger sampleRequest = .ok sampleLogger ∧
    (run [Call.Log epoch LevelDebug "m" []] { logger := sampleLogger, stdout := [] }).panic
      = none ∧
    (run [Call.Log epoch LevelDebug "m" []]
      { logger := sampleLogger, stdout := [] }).state.stdout.map Record.orderIndex = [] ∧
    (run [Call.Log epoch LevelDebug "m" []]
      { logger := sampleLogger, stdout := [] }).state.stdout.map Record.orderIndex ≠ [some 1] :=
  ⟨rfl, by decide, by decide, by decide⟩

theorem convenience_steps (c : Call) (hconv : c.isGeneric = false)
    (hargs : danglingKey c.args = false) : StepsBy 0 c := by
  intro s hret
  cases c with
  | Log now level msg attrs => simp [Call.isGeneric] at hconv
  | Debug now msg args => exact convenience_step LevelDebug now msg args hargs s hret
  | Info now msg args => exact convenience_step LevelInfo now msg args hargs s hret
  | Warn now msg args => exact convenience_step LevelWarn now msg args hargs s hret
  | Error now msg args => exact convenience_step LevelError now msg args hargs s hret

/-- C2 (amended): sequential calls of `Debug`, `Info`, `Warn` and `Error` that all return, with
argument lists that do not end in a key without a value, on a logger whose counter starts at 0,
leave the counter at the number of calls, and write one line for each call whose level the slog
handler enables, stamped with the position of that call counted from 0 (the counter before its
increment); when every level is enabled the stamps of the lines are exactly 0, 1, ..., N-1 in
call order. -/
theorem convenience_stamps_positions (l : OrderedLogger) (out0 : List Record)
    (calls : List Call) (h0 : l.Counter = 0) (hconv : ∀ c ∈ calls, c.isGeneric = false)
    (hargs : ∀ c ∈ calls, danglingKey c.args = false)
    (hret : (run calls { logger := l, stdout := out0 }).panic = none) :
    (run calls { logger := l, stdout := out0 }).state.logger.Counter = calls.length ∧
    ∃ recs, (run calls { logger := l, stdout := out0 }).state.stdout = out0 ++ recs ∧
      recs.map Record.orderIndex =
        ((calls.enumFrom 0).filter (fun p => l.Logger.Enabled p.2.level)).map
          (fun p => some (p.1 : Int)) ∧
      ((∀ c ∈ calls, l.Logger.Enabled c.level = true) →
        recs.map Record.orderIndex =
          (List.range calls.length).map (fun i => some (i : Int))) := by
  have hsteps : ∀ c ∈ calls, StepsBy 0 c :=
    fun c hc => convenience_steps c (hconv c hc) (hargs c hc)
  obtain ⟨h1, _, recs, h3, h4⟩ := run_steps 0 calls _ hsteps hret
  simp only [h0, zero_add] at h1 h4
  refine ⟨h1, recs, h3, ?_, ?_⟩
  · rw [h4]; exact stampsFrom_enumFrom l.Logger calls 0
  · intro hen
    rw [h4, List.range_eq_range']; exact stampsFrom_all l.Logger calls hen 0

/-- Witness of `convenience_stamps_positions`: `Info`, `Debug`, `Warn` and `Error` on the logger
of `sampleRequest`, whose handler drops the debug line. -/
theorem convenience_stamps_positions_witness :
    (run [Call.Info epoch "a" [], Call.Debug epoch "b" [],
        Call.Warn epoch "c" [Arg.str "k", Arg.val (.int 7)], Call.Error epoch "d" []]
      { logger := sampleLogger, stdout := [] }).state.logger.Counter = (4 : Nat) ∧
    ∃ recs, (run [Call.Info epoch "a" [], Call.Debug epoch "b" [],
        Call.Warn epoch "c" [Arg.str "k", Arg.val (.int 7)], Call.Error epoch "d" []]
      { logger := sampleLogger, stdout := [] }).state.stdout = [] ++ recs ∧
      recs.map Record.orderIndex = [some 0, some 2, some 3] := by
  obtain ⟨h1, recs, h2, h3, _⟩ := convenience_stamps_positions sampleLogger []
    [Call.Info epoch "a" [], Call.Debug epoch "b" [],
      Call.Warn epoch "c" [Arg.str "k", Arg.val (.int 7)], Call.Error epoch "d" []]
    rfl (by decide) (by decide) (by decide)
  exact ⟨h1, recs, h2, h3⟩

/-- C2, counterexample: on the logger `InitLogger` builds, a `Debug` call returns and writes no
line; and an `Info` call whose arguments end in a key without a value writes a line in which
the `order_index` attribute has become the value of that key, so the line has no `order_index`
field. -/
theorem convenience_without_stamp :
    InitLogger sampleRequest = .ok sampleLogger ∧
    (run [Call.Debug epoch "m" []] { logger := sampleLogger, stdout := [] }).panic = none ∧
    (run [Call.Debug epoch "m" []]
      { logger := sampleLogger, stdout := [] }).state.stdout.map Record.orderIndex ≠ [some 0] ∧
    (run [Call.Debug epoch "m" []]
      { logger := sampleLogger, stdout := [] }).state.stdout.length = 0 ∧
    (run [Call.Info epoch "m" [Arg.str "k"]]
      { logger := sampleLogger, stdout := [] }).panic = none ∧
    (run [Call.Info epoch "m" [Arg.str "k"]]
      { logger := sampleLogger, stdout := [] }).state.stdout.map (fun r => r.map Prod.fst) =
        [["time", "severity", "message", "session_id", "test_id", "request_id", "k"]] ∧
    (run [Call.Info epoch "m" [Arg.str "k"]]
      { logger := sampleLogger, stdout := [] }).state.stdout.map Record.orderIndex = [none] :=
  ⟨rfl, by decide, by decide, by decide, by decide, by decide, by decide⟩

/-- C3, the failing input: on the logger `InitLogger` builds, a generic `Log` call followed by
an `Info` call returns, moves the counter from 0 to 2, and writes two lines that carry the same
stamp 1: the stamps are neither distinct nor strictly increasing. -/
theorem Log_then_Info_repeats_stamp :
    InitLogger sampleRequest = .ok sampleLogger ∧
    (run [Call.Log epoch LevelInfo "a" [], Call.Info epoch "b" []]
      { logger := sampleLogger, stdout := [] }).panic = none ∧
    (run [Call.Log epoch LevelInfo "a" [], Call.Info epoch "b" []]
      { logger := sampleLogger, stdout := [] }).state.logger.Counter = 2 ∧
    (run [Call.Log epoch LevelInfo "a" [], Call.Info epoch "b" []]
      { logger := sampleLogger, stdout := [] }).state.stdout.map Record.orderIndex =
        [some 1, some 1] :=
  ⟨rfl, by decide, by decide, by decide⟩

/-! ## Concurrent calls -/

/-- A goroutine that runs alone does what the sequential `OrderedLogger.Log` does. -/
theorem alone_agrees_with_Log (now : Time) (level : Int) (msg : String) (attrs : List Attr)
    (l : OrderedLogger) (out0 : List Record) :
    ∃ c, Config.exec [0, 0, 0, 0, 0] (Config.init l out0 [(now, level, msg, attrs)]) = some c ∧
      c.shared.logger =
        (OrderedLogger.Log now level msg attrs { logger := l, stdout := out0 }).state.logger ∧
      c.shared.stdout =
        (OrderedLogger.Log now level msg attrs { logger := l, stdout := out0 }).state.stdout ∧
      c.shared.Mu = false := by
  cases h : slog.Logger.Log l.Logger now level msg
      (attrs.map Arg.attr ++ [Arg.attr (slog.Int "order_index" (l.Counter + 1))]) out0 with
  | ok out =>
    simp [Config.exec, Config.step, Config.init, Goroutine.step, OrderedLogger.Log, State.bump, h]
  | error e =>
    simp [Config.exec, Config.step, Config.init, Goroutine.step, OrderedLogger.Log, State.bump, h]

theorem sum_increments_set (gs : List Goroutine) (g1 : Goroutine) : ∀ (i : Nat) (g : Goroutine),
    gs.get? i = some g →
    ((gs.set i g1).map Goroutine.increments).sum + g.increments =
      (gs.map Goroutine.increments).sum + g1.increments := by
  induction gs with
  | nil => intro i g h; simp at h
  | cons x rest ih =>
    intro i g h
    cases i with
    | zero =>
      simp only [List.get?_cons_zero, Option.some.injEq] at h
      subst h
      simp only [List.set_cons_zero, List.map_cons, List.sum_cons]
      ring
    | succ j =>
      simp only [List.get?_cons_succ] at h
      have := ih j g h
      simp only [List.set_cons_succ, List.map_cons, List.sum_cons]
      linarith

theorem step_increments (g g1 : Goroutine) (sh sh1 : Shared)
    (h : g.step sh = some (g1, sh1)) :
    sh1.logger.Counter + g.increments = sh.logger.Counter + g1.increments := by
  unfold Goroutine.step at h
  rcases hpc : g.pc with _ | _ | _ | _ | idx | _ | e <;> rw [hpc] at h <;>
    simp only [Goroutine.increments, hpc] at h ⊢
  · by_cases hm : sh.Mu = true
    · simp [hm] at h
    · simp only [hm, Bool.false_eq_true, if_false, Option.some.injEq, Prod.mk.injEq] at h
      obtain ⟨h1, h2⟩ := h
      subst h1; subst h2
      simp
  · simp only [Option.some.injEq, Prod.mk.injEq] at h
    obtain ⟨h1, h2⟩ := h
    subst h1; subst h2
    simp
  · simp only [Option.some.injEq, Prod.mk.injEq] at h
    obtain ⟨h1, h2⟩ := h
    subst h1; subst h2
    simp
  · simp only [Option.some.injEq, Prod.mk.injEq] at h
    obtain ⟨h1, h2⟩ := h
    subst h1; subst h2
    simp
  · cases hl : sh.logger.Logger.Log g.now g.level g.msg
        ((g.attrs ++ [slog.Int "order_index" idx]).map Arg.attr) sh.stdout with
    | ok out =>
      rw [hl] at h
      simp only [Option.some.injEq, Prod.mk.injEq] at h
      obtain ⟨h1, h2⟩ := h
      subst h1; subst h2
      simp
    | error e =>
      rw [hl] at h
      simp only [Option.some.injEq, Prod.mk.injEq] at h
      obtain ⟨h1, h2⟩ := h
      subst h1; subst h2
      simp
  · simp at h
  · simp at h

theorem exec_increments (sched : List Nat) : ∀ (c c1 : Config),
    Config.exec sched c = some c1 →
    c1.goroutines.length = c.goroutines.length ∧
    c1.shared.logger.Counter + (c.goroutines.map Goroutine.increments).sum =
      c.shared.logger.Counter + (c1.goroutines.map Goroutine.increments).sum := by
  induction sched with
  | nil =>
    intro c c1 h
    simp only [Config.exec, Option.some.injEq] at h
    subst h
    exact ⟨rfl, rfl⟩
  | cons i rest ih =>
    intro c c1 h
    simp only [Config.exec] at h
    cases hs : c.step i with
    | none => rw [hs] at h; simp at h
    | some c2 =>
      rw [hs] at h
      obtain ⟨hlen, hsum⟩ := ih c2 c1 h
      unfold Config.step at hs
      cases hg : c.goroutines.get? i with
      | none => simp only [hg] at hs; exact absurd hs (by simp)
      | some g =>
        cases hst : g.step c.shared with
        | none => simp only [hg, hst] at hs; exact absurd hs (by simp)
        | some p =>
          obtain ⟨g1, sh1⟩ := p
          simp only [hg, hst, Option.some.injEq] at hs
          subst hs
          have h1 := step_increments g g1 c.shared sh1 hst
          have h2 := sum_increments_set c.goroutines g1 i g hg
          simp only [List.length_set] at hlen
          simp only at hsum
          exact ⟨hlen, by linarith⟩

theorem sum_increments_init (l : OrderedLogger) (out0 : List Record)
    (calls : List (Time × Int × String × List Attr)) :
    ((Config.init l out0 calls).goroutines.map Goroutine.increments).sum = 0 := by
  induction calls with
  | nil => rfl
  | cons x rest ih =>
    simp only [Config.init, List.map_cons, List.sum_cons] at ih ⊢
    rw [ih]
    rfl

theorem sum_increments_finished (gs : List Goroutine)
    (h : gs.all (fun g => g.pc == .done) = true) :
    (gs.map Goroutine.increments).sum = gs.length := by
  induction gs with
  | nil => rfl
  | cons g rest ih =>
    simp only [List.all_cons, Bool.and_eq_true, beq_iff_eq] at h
    simp only [List.map_cons, List.sum_cons, List.length_cons, ih h.2, Goroutine.increments, h.1]
    push_cast
    ring

/-- In every complete interleaving of concurrent `Log` calls the counter ends at its start value
plus the number of calls: the increments are not lost. -/
theorem concurrent_Log_final_counter (l : OrderedLogger) (out0 : List Record)
    (calls : List (Time × Int × String × List Attr)) (sched : List Nat) (c : Config)
    (hexec : Config.exec sched (Config.init l out0 calls) = some c)
    (hfin : c.finished = true) :
    c.shared.logger.Counter = l.Counter + calls.length := by
  obtain ⟨hlen, hsum⟩ := exec_increments sched _ c hexec
  have h0 := sum_increments_init l out0 calls
  have h1 := sum_increments_finished c.goroutines hfin
  rw [h0, h1, hlen] at hsum
  simp only [Config.init, List.length_map, add_zero] at hsum
  exact hsum

/-- C4, the failing input: two concurrent `Log` calls at info level on the logger `InitLogger`
builds. Both goroutines increment the counter under the lock, one after the other, and only
then read it, outside the lock (line 25): the interleaving is complete, the counter ends at 2,
and both lines carry the stamp 2; no line carries 1. -/
theorem concurrent_Log_repeats_stamp :
    InitLogger sampleRequest = .ok sampleLogger ∧
    ∃ c, Config.exec [0, 0, 0, 1, 1, 1, 0, 1, 0, 1]
        (Config.init sampleLogger [] [(epoch, LevelInfo, "a", []), (epoch, LevelInfo, "b", [])])
          = some c ∧
      c.finished = true ∧
      c.shared.logger.Counter = 2 ∧
      c.shared.stdout.map Record.orderIndex = [some 2, some 2] := by
  refine ⟨rfl, _, rfl, ?_, ?_, ?_⟩ <;> decide

/-! ## Construction and the middleware -/

theorem InitLogger_eq (request : Request) :
    InitLogger request = .ok (freshLogger request) := rfl

theorem slogLog_shape (l : slog.Logger) (now : Time) (level : Int) (msg : String)
    (args : List Arg) (out : List Record) :
    (∃ e, l.Log now level msg args out = .error e) ∨
    l.Log now level msg args out = .ok out ∨
    ∃ rest, l.Log now level msg args out =
      .ok (out ++ [builtins now level msg ++ l.preformatted ++ rest]) := by
  unfold slog.Logger.Log
  rw [Handle_eq]
  cases l.Enabled level with
  | false => right; left; rfl
  | true =>
    cases appendAttrs [] (argsToAttrs args) with
    | error e => left; exact ⟨e, rfl⟩
    | ok rest => right; right; exact ⟨rest, rfl⟩

theorem Log_shape (now : Time) (level : Int) (msg : String) (attrs : List Attr) (s : State) :
    (OrderedLogger.Log now level msg attrs s).state.logger.Logger = s.logger.Logger ∧
    ∃ recs, (OrderedLogger.Log now level msg attrs s).state.stdout = s.stdout ++ recs ∧
      ∀ r ∈ recs, ∀ a ∈ s.logger.Logger.preformatted, a ∈ r := by
  unfold OrderedLogger.Log
  rcases slogLog_shape s.bump.logger.Logger now level msg
    ((attrs ++ [slog.Int "order_index" s.bump.logger.Counter]).map Arg.attr) s.bump.stdout with
    ⟨e, h⟩ | h | ⟨rest, h⟩
  · simp only [h]; exact ⟨rfl, [], by simp [State.bump], by simp⟩
  · simp only [h]; exact ⟨rfl, [], by simp [State.bump], by simp⟩
  · simp only [h]
    refine ⟨rfl, [builtins now level msg ++ s.logger.Logger.preformatted ++ rest], rfl, ?_⟩
    intro r hr a ha
    simp only [List.mem_singleton] at hr
    subst hr
    simp [ha]

theorem convenience_shape (level : Int) (now : Time) (msg : String) (args : List Arg)
    (s : State) :
    (OrderedLogger.convenience level now msg args s).state.logger.Logger = s.logger.Logger ∧
    ∃ recs, (OrderedLogger.convenience level now msg args s).state.stdout = s.stdout ++ recs ∧
      ∀ r ∈ recs, ∀ a ∈ s.logger.Logger.preformatted, a ∈ r := by
  unfold OrderedLogger.convenience
  rcases slogLog_shape s.logger.Logger now level msg
    (args ++ [Arg.attr (slog.Int "order_index" s.logger.Counter)]) s.stdout with
    ⟨e, h⟩ | h | ⟨rest, h⟩
  · rw [h]; exact ⟨rfl, [], by simp, by simp⟩
  · rw [h]; exact ⟨rfl, [], by simp [increment, State.bump], by simp⟩
  · rw [h]
    refine ⟨rfl, [builtins now level msg ++ s.logger.Logger.preformatted ++ rest], rfl, ?_⟩
    intro r hr a ha
    simp only [List.mem_singleton] at hr
    subst hr
    simp [ha]

/-- Whatever the call and however it ends: the slog logger is untouched, and at most one line is
appended, which holds the preformatted fields of the logger. -/
theorem exec_shape (c : Call) (s : State) :
    (c.exec s).state.logger.Logger = s.logger.Logger ∧
    ∃ recs, (c.exec s).state.stdout = s.stdout ++ recs ∧
      ∀ r ∈ recs, ∀ a ∈ s.logger.Logger.preformatted, a ∈ r := by
  cases c with
  | Log now level msg attrs => exact Log_shape now level msg attrs s
  | Debug now msg args => exact convenience_shape LevelDebug now msg args s
  | Info now msg args => exact convenience_shape LevelInfo now msg args s
  | Warn now msg args => exact convenience_shape LevelWarn now msg args s
  | Error now msg args => exact convenience_shape LevelError now msg args s

theorem run_shape (calls : List Call) : ∀ (s : State),
    (run calls s).state.logger.Logger = s.logger.Logger ∧
    ∃ recs, (run calls s).state.stdout = s.stdout ++ recs ∧
      ∀ r ∈ recs, ∀ a ∈ s.logger.Logger.preformatted, a ∈ r := by
  induction calls with
  | nil => intro s; exact ⟨rfl, [], by simp [run], by simp⟩
  | cons c rest ih =>
    intro s
    obtain ⟨c1, recs1, c2, c3⟩ := exec_shape c s
    rw [run_cons]
    by_cases hp : (c.exec s).panic = none
    · rw [if_pos hp]
      obtain ⟨h1, recs, h2, h3⟩ := ih (c.exec s).state
      refine ⟨h1.trans c1, recs1 ++ recs, by rw [h2, c2, List.append_assoc], ?_⟩
      intro r hr a ha
      rcases List.mem_append.mp hr with hr | hr
      · exact c3 r hr a ha
      · exact h3 r hr a (c1 ▸ ha)
    · rw [if_neg hp]
      exact ⟨c1, recs1, c2, c3⟩

theorem trailer_exec (tEnd : Time) (s : State) (hlevel : s.logger.Logger.minLevel = LevelInfo) :
    OrderedLogger.Info tEnd "end-of-request" [] s =
      { state := increment { s with stdout := s.stdout ++
          [builtins tEnd LevelInfo "end-of-request" ++ s.logger.Logger.preformatted ++
            [("order_index", .int s.logger.Counter)]] },
        panic := none } := by
  unfold OrderedLogger.Info
  rw [convenience_exec LevelInfo tEnd "end-of-request" [] s rfl]
  have hen : s.logger.Logger.Enabled LevelInfo = true := by
    simp [slog.Logger.Enabled, hlevel]
  have hap : appendAttrs [] (argsToAttrs []) = .ok [] := rfl
  simp [hen, hap]

/-- C5: when the wrapped handler returns, the handler made by `WithLogger` returns too, and
standard output is what it was, then the lines the wrapped handler wrote through the logger of
the request, then one last line, the trailer: time, severity `LevelInfo`, message
`end-of-request`, the three header values and the stamp. A wrapped handler that writes no line
leaves exactly that one line. -/
theorem WithLogger_trailer (next : Handler) (addr : Addr) (tEnd : Time) (request : Request)
    (stdout : List Record) (hret : (handlerRun next addr request stdout).panic = none) :
    (WithLogger next addr tEnd request stdout).panic = none ∧
    ∃ recs, (handlerRun next addr request stdout).state.stdout = stdout ++ recs ∧
      (WithLogger next addr tEnd request stdout).stdout =
        stdout ++ recs ++
          [[("time", .string (formatUTC tEnd)), ("severity", .level LevelInfo),
            ("message", .string "end-of-request")] ++ defaultAttrs request ++
            [("order_index", .int (handlerRun next addr request stdout).state.logger.Counter)]] ∧
      (recs = [] → stdout = [] →
        (WithLogger next addr tEnd request stdout).stdout.length = 1) := by
  obtain ⟨hl, recs, hout, _⟩ :=
    run_shape (next (installed request addr)) { logger := freshLogger request, stdout := stdout }
  have hw : WithLogger next addr tEnd request stdout =
      { stdout := (OrderedLogger.Info tEnd "end-of-request" []
            (handlerRun next addr request stdout).state).state.stdout,
        logger := some (OrderedLogger.Info tEnd "end-of-request" []
            (handlerRun next addr request stdout).state).state.logger,
        panic := (OrderedLogger.Info tEnd "end-of-request" []
            (handlerRun next addr request stdout).state).panic } := by
    unfold WithLogger
    simp only [InitLogger_eq]
    unfold handlerRun installed at *
    rcases h : run (next (request.WithContext (request.Context.WithValue (.str LoggerKeyName)
        (.orderedLogger (some addr))))) { logger := freshLogger request, stdout := stdout }
      with ⟨s1, _ | e⟩
    · rfl
    · rw [h] at hret
      simp at hret
  have hlevel : (handlerRun next addr request stdout).state.logger.Logger.minLevel = LevelInfo := by
    unfold handlerRun
    rw [hl]
    rfl
  rw [hw, trailer_exec tEnd _ hlevel]
  refine ⟨rfl, recs, hout, ?_, ?_⟩
  · show (handlerRun next addr request stdout).state.stdout ++ _ = _
    have hout2 : (handlerRun next addr request stdout).state.stdout = stdout ++ recs := hout
    have hpre : (handlerRun next addr request stdout).state.logger.Logger.preformatted =
        defaultAttrs request := by
      unfold handlerRun
      rw [hl]
      rfl
    rw [hout2, hpre]
    rfl
  · intro h1 h2
    show ((handlerRun next addr request stdout).state.stdout ++ _).length = 1
    have hout2 : (handlerRun next addr request stdout).state.stdout = stdout ++ recs := hout
    rw [hout2, h1, h2]
    rfl

/-- Witness of `WithLogger_trailer`: `sampleHandler` on `sampleRequest`, from an empty standard
output. -/
theorem WithLogger_trailer_witness :
    (handlerRun sampleHandler 1 sampleRequest []).panic = none ∧
    (WithLogger sampleHandler 1 epoch sampleRequest []).panic = none ∧
    ∃ recs, (handlerRun sampleHandler 1 sampleRequest []).state.stdout = [] ++ recs ∧
      (WithLogger sampleHandler 1 epoch sampleRequest []).stdout =
        [] ++ recs ++
          [[("time", .string (formatUTC epoch)), ("severity", .level LevelInfo),
            ("message", .string "end-of-request")] ++ defaultAttrs sampleRequest ++
            [("order_index",
              .int (handlerRun sampleHandler 1 sampleRequest []).state.logger.Counter)]] := by
  have hret : (handlerRun sampleHandler 1 sampleRequest []).panic = none := by decide
  obtain ⟨h1, recs, h2, h3, _⟩ := WithLogger_trailer sampleHandler 1 epoch sampleRequest [] hret
  exact ⟨hret, h1, recs, h2, h3⟩

/-- C8: `InitLogger` returns a logger, whose counter is 0 and whose preformatted attributes are
`session_id`, `test_id` and `request_id` with the values `Header.Get` gives for `X-Session-Id`,
`X-Test-Id` and `X-Request-Id`: the first value of the header, the empty string when the header
is absent. Every line written by calls on that logger holds the three attributes. -/
theorem InitLogger_defaults (request : Request) :
    ∃ l, InitLogger request = .ok l ∧
      l.Counter = 0 ∧
      l.Logger.preformatted =
        [("session_id", .string (request.Header.Get "X-Session-Id")),
         ("test_id", .string (request.Header.Get "X-Test-Id")),
         ("request_id", .string (request.Header.Get "X-Request-Id"))] ∧
      (∀ key v rest, request.Header.lookup key = some (v :: rest) →
        request.Header.Get key = v) ∧
      (∀ key, request.Header.lookup key = none → request.Header.Get key = "") ∧
      ∀ (calls : List Call) (out0 : List Record),
        ∃ recs, (run calls { logger := l, stdout := out0 }).state.stdout = out0 ++ recs ∧
          ∀ r ∈ recs,
            ("session_id", Value.string (request.Header.Get "X-Session-Id")) ∈ r ∧
            ("test_id", Value.string (request.Header.Get "X-Test-Id")) ∈ r ∧
            ("request_id", Value.string (request.Header.Get "X-Request-Id")) ∈ r := by
  refine ⟨freshLogger request, InitLogger_eq request, rfl, rfl, ?_, ?_, ?_⟩
  · intro key v rest h
    simp [Header.Get, h]
  · intro key h
    simp [Header.Get, h]
  · intro calls out0
    obtain ⟨_, recs, h2, h3⟩ := run_shape calls { logger := freshLogger request, stdout := out0 }
    refine ⟨recs, h2, ?_⟩
    intro r hr
    have hmem := h3 r hr
    simp only [freshLogger, defaultAttrs] at hmem
    exact ⟨hmem _ (by simp), hmem _ (by simp), hmem _ (by simp)⟩

/-! ## Retrieval -/

theorem Value_of_Binds (c : Context) (k : Key) (v : CtxValue) (h : Binds c k v) :
    c.Value k = some v := by
  induction h with
  | here parent k v => simp [Context.Value]
  | skip parent k1 k v1 v hne _ ih => simp [Context.Value, hne, ih]
  | cancel parent k v _ ih => simpa [Context.Value] using ih

theorem Binds_of_Value (c : Context) (k : Key) (v : CtxValue) (h : c.Value k = some v) :
    Binds c k v := by
  induction c with
  | background => simp [Context.Value] at h
  | withValue parent k1 v1 ih =>
    by_cases hk : k1 = k
    · simp [Context.Value, hk] at h
      subst hk
      subst h
      exact Binds.here parent k1 v1
    · simp [Context.Value, hk] at h
      exact Binds.skip parent k1 k v1 v hk (ih h)
  | withCancel parent ih =>
    exact Binds.cancel parent k v (ih (by simpa [Context.Value] using h))

/-- C6: `GetLogger` is a total function, and for every request it returns the bound pointer
with `true` when the innermost binding of the logger key in the context of the request is a
`*OrderedLogger`, and the nil pointer with `false` when the key is not bound or is bound to a
value of another type; so the indicator is `true` exactly when a `*OrderedLogger` is bound. -/
theorem GetLogger_found_iff_bound (request : Request) :
    (∀ p, Binds request.Context (.str LoggerKeyName) (.orderedLogger p) →
      GetLogger request = (p, true)) ∧
    ((∀ v, ¬ Binds request.Context (.str LoggerKeyName) v) →
      GetLogger request = (none, false)) ∧
    (∀ t, Binds request.Context (.str LoggerKeyName) (.other t) →
      GetLogger request = (none, false)) ∧
    ((GetLogger request).2 = true ↔
      ∃ p, Binds request.Context (.str LoggerKeyName) (.orderedLogger p)) := by
  refine ⟨?_, ?_, ?_, ?_⟩
  · intro p h
    simp [GetLogger, Value_of_Binds _ _ _ h, assertOrderedLogger]
  · intro h
    cases hv : request.Context.Value (.str LoggerKeyName) with
    | none => simp [GetLogger, hv, assertOrderedLogger]
    | some v => exact absurd (Binds_of_Value _ _ _ hv) (h v)
  · intro t h
    simp [GetLogger, Value_of_Binds _ _ _ h, assertOrderedLogger]
  · constructor
    · intro h
      cases hv : request.Context.Value (.str LoggerKeyName) with
      | none => simp [GetLogger, hv, assertOrderedLogger] at h
      | some v =>
        cases v with
        | orderedLogger p => exact ⟨p, Binds_of_Value _ _ _ hv⟩
        | other t => simp [GetLogger, hv, assertOrderedLogger] at h
    · rintro ⟨p, h⟩
      simp [GetLogger, Value_of_Binds _ _ _ h, assertOrderedLogger]

/-- C7: retrieval from the request `WithLogger` hands on, whose context binds the logger at
`addr` under the logger key on top of the context `c` of the incoming request, returns that same
pointer with `true`, whatever `c` binds under the key; and so does retrieval after any install
of a pointer `p` on any context. -/
theorem GetLogger_after_install (request : Request) (addr : Addr) (c : Context)
    (p : Option Addr) :
    GetLogger (installed request addr) = (some addr, true) ∧
    GetLogger (request.WithContext (c.WithValue (.str LoggerKeyName) (.orderedLogger p)))
      = (p, true) ∧
    ∀ q, GetLogger (request.WithContext
        ((c.WithValue (.str LoggerKeyName) (.orderedLogger q)).WithValue
          (.str LoggerKeyName) (.orderedLogger p))) = (p, true) := by
  refine ⟨?_, ?_, ?_⟩
  · simp [GetLogger, installed, Request.WithContext, Request.Context, Context.WithValue,
      Context.Value, assertOrderedLogger]
  · simp [GetLogger, Request.WithContext, Request.Context, Context.WithValue,
      Context.Value, assertOrderedLogger]
  · intro q
    simp [GetLogger, Request.WithContext, Request.Context, Context.WithValue,
      Context.Value, assertOrderedLogger]

/-! ## The rendering of timestamps -/

theorem cycleYearDay_spec (d0 : Nat) (h : d0 < 146097) :
    ∃ b c e : Nat, b ≤ 3 ∧ c ≤ 24 ∧ e ≤ 3 ∧
      (cycleYearDay d0).1 = 100 * b + 4 * c + e ∧
      36524 * b + 1461 * c + 365 * e + (cycleYearDay d0).2 = d0 ∧
      ((cycleYearDay d0).2 < 365 ∨
        ((cycleYearDay d0).2 = 365 ∧ e = 3 ∧ (c < 24 ∨ b = 3))) := by
  obtain ⟨b, hb⟩ : ∃ b, b = d0 / 36524 - d0 / 36524 / 4 := ⟨_, rfl⟩
  obtain ⟨d1, hd1⟩ : ∃ d1, d1 = d0 - 36524 * b := ⟨_, rfl⟩
  obtain ⟨c, hc⟩ : ∃ c, c = d1 / 1461 := ⟨_, rfl⟩
  obtain ⟨d2, hd2⟩ : ∃ d2, d2 = d1 - 1461 * c := ⟨_, rfl⟩
  obtain ⟨e, he⟩ : ∃ e, e = d2 / 365 - d2 / 365 / 4 := ⟨_, rfl⟩
  have hval : cycleYearDay d0 = (100 * b + 4 * c + e, d2 - 365 * e) := by
    simp only [cycleYearDay, hb, hd1, hc, hd2, he]
  have s1 : b ≤ 3 ∧ 36524 * b ≤ d0 ∧ d1 < 36525 ∧ (b < 3 → d1 < 36524) := by omega
  have s2 : c ≤ 24 ∧ 1461 * c ≤ d1 ∧ d2 < 1461 ∧ (d1 < 36524 → c = 24 → d2 < 1460) := by omega
  have s3 : e ≤ 3 ∧ 365 * e ≤ d2 ∧ d2 - 365 * e < 366 ∧ (e < 3 → d2 - 365 * e < 365) ∧
      (d2 < 1460 → d2 - 365 * e < 365) := by omega
  refine ⟨b, c, e, s1.1, s2.1, s3.1, by rw [hval], ?_, ?_⟩
  · rw [hval]; simp only; omega
  · rw [hval]; simp only; omega

theorem isLeap_cycle (era : Int) (b c e : Nat) (hb : b ≤ 3) (hc : c ≤ 24) (he : e ≤ 3) :
    isLeap (400 * era + ((100 * b + 4 * c + e : Nat) : Int) + 1) = true ↔
      (e = 3 ∧ (c < 24 ∨ b = 3)) := by
  simp only [isLeap, Bool.and_eq_true, Bool.or_eq_true, decide_eq_true_eq, bne_iff_ne, ne_eq]
  push_cast
  omega

theorem yearDay_core (era : Int) (d0 : Nat) (h : d0 < 146097) :
    daysBeforeYear (400 * era + ((cycleYearDay d0).1 : Int) + 1) + (cycleYearDay d0).2 =
      146097 * era + d0 - 719162 ∧
    (cycleYearDay d0).2 < daysInYear (400 * era + ((cycleYearDay d0).1 : Int) + 1) := by
  obtain ⟨b, c, e, hb, hc, he, h1, h2, h3⟩ := cycleYearDay_spec d0 h
  generalize cycleYearDay d0 = p at h1 h2 h3
  obtain ⟨n, yd⟩ := p
  simp only at h1 h2 h3
  subst h1
  have hleap := isLeap_cycle era b c e hb hc he
  constructor
  · simp only [daysBeforeYear]
    push_cast
    omega
  · simp only [daysInYear]
    by_cases hl : isLeap (400 * era + ((100 * b + 4 * c + e : Nat) : Int) + 1) = true
    · rw [if_pos hl]; omega
    · rw [if_neg hl]
      have := mt hleap.mpr hl
      omega

theorem yearDay_spec (z : Int) :
    daysBeforeYear (yearDay z).1 + (yearDay z).2 = z - 719162 ∧
    (yearDay z).2 < daysInYear (yearDay z).1 := by
  have hd0 : (z % 146097).toNat < 146097 := by omega
  have hz : 146097 * (z / 146097) + ((z % 146097).toNat : Int) = z := by omega
  have h := yearDay_core (z / 146097) (z % 146097).toNat hd0
  rw [hz] at h
  exact h

/-! month and day -/

theorem monthDay_table : ∀ leap : Bool, ∀ yday < 366, yday < (if leap then 366 else 365) →
    1 ≤ (monthDay leap yday).1 ∧ (monthDay leap yday).1 ≤ 12 ∧
    1 ≤ (monthDay leap yday).2 ∧
    (monthDay leap yday).2 ≤ monthLength leap (monthDay leap yday).1 ∧
    ((List.range ((monthDay leap yday).1 - 1)).map (fun k => monthLength leap (k + 1))).sum +
      ((monthDay leap yday).2 - 1) = yday := by
  decide!

theorem monthDay_spec (y : Int) (yday : Nat) (h : yday < daysInYear y) :
    1 ≤ (monthDay (isLeap y) yday).1 ∧ (monthDay (isLeap y) yday).1 ≤ 12 ∧
    1 ≤ (monthDay (isLeap y) yday).2 ∧
    (monthDay (isLeap y) yday).2 ≤ daysInMonth y (monthDay (isLeap y) yday).1 ∧
    daysBeforeMonth y (monthDay (isLeap y) yday).1 + ((monthDay (isLeap y) yday).2 - 1) = yday := by
  unfold daysInYear at h
  have h366 : yday < 366 := by split at h <;> omega
  exact monthDay_table (isLeap y) yday h366 h

theorem civilUTC_spec (t : Time) (hn : t.nsec < 1000000000) :
    t.civilUTC.valid ∧ t.civilUTC.unixSeconds = t.sec ∧ t.civilUTC.nano = t.nsec := by
  obtain ⟨y1, y2⟩ := yearDay_spec (t.sec / 86400 + 719162)
  obtain ⟨m1, m2, m3, m4, m5⟩ := monthDay_spec _ _ y2
  refine ⟨⟨m1, m2, m3, m4, ?_, ?_, ?_, hn⟩, ?_, rfl⟩
  · show (t.sec % 86400).toNat / 3600 < 24
    omega
  · show (t.sec % 86400).toNat % 3600 / 60 < 60
    omega
  · show (t.sec % 86400).toNat % 60 < 60
    omega
  · simp only [Civil.unixSeconds, Time.civilUTC]
    generalize yearDay (t.sec / 86400 + 719162) = yd at y1 y2 m1 m2 m3 m4 m5 ⊢
    generalize monthDay (isLeap yd.1) yd.2 = md at m1 m2 m3 m4 m5 ⊢
    generalize daysBeforeYear yd.1 = dy at y1 ⊢
    generalize daysBeforeMonth yd.1 md.1 = dm at m5 ⊢
    omega


/-! text -/

theorem digitValue_utod (d : Nat) (h : d < 10) : digitValue (utod d) = some d := by
  interval_cases d <;> rfl

theorem digitsFixed_lt (w u : Nat) : ∀ d ∈ digitsFixed w u, d < 10 := by
  induction w with
  | zero => intro d hd; simp [digitsFixed] at hd
  | succ w ih =>
    intro d hd
    simp only [digitsFixed, List.mem_cons] at hd
    rcases hd with hd | hd
    · subst hd; exact Nat.mod_lt _ (by decide)
    · exact ih d hd

theorem readDigits_digitsFixed (w u : Nat) (rest : List Char) :
    readDigits w ((digitsFixed w u).map utod ++ rest) = some (u % 10 ^ w, rest) := by
  induction w with
  | zero => simp [digitsFixed, readDigits, Nat.mod_one]
  | succ w ih =>
    simp only [digitsFixed, List.map_cons, List.cons_append, readDigits, List.append_eq, ih,
      digitValue_utod _ (Nat.mod_lt _ (by decide : 10 > 0))]
    rw [Nat.mod_pow_succ]
    congr 2
    ring

theorem fracValue_digitsFixed (w u : Nat) : fracValue w (digitsFixed w u) = u % 10 ^ w := by
  induction w with
  | zero => simp [digitsFixed, fracValue, Nat.mod_one]
  | succ w ih =>
    simp only [digitsFixed, fracValue, ih]
    rw [Nat.mod_pow_succ]
    ring

theorem digitsLenAux_le (fuel : Nat) : ∀ (k u : Nat), u < 10 ^ (k + 1) →
    digitsLenAux fuel u ≤ k + 1 := by
  induction fuel with
  | zero => intro k u _; simp [digitsLenAux]
  | succ fuel ih =>
    intro k u h
    simp only [digitsLenAux]
    split
    · omega
    · cases k with
      | zero => omega
      | succ k =>
        have : u / 10 < 10 ^ (k + 1) := by
          rw [Nat.div_lt_iff_lt_mul (by decide)]
          rw [pow_succ] at h
          exact h
        have := ih k (u / 10) this
        omega

theorem appendInt_nat (u w : Nat) (h : u < 10 ^ (w + 1)) :
    appendInt (u : Int) (w + 1) = (digitsFixed (w + 1) u).map utod := by
  have hl : digitsLen u ≤ w + 1 := digitsLenAux_le u w u h
  have hneg : ¬ ((u : Int) < 0) := by omega
  simp only [appendInt, hneg, if_false, List.nil_append, Int.natAbs_ofNat, max_eq_left hl]

theorem spanDigits_digits (ds : List Nat) (h : ∀ d ∈ ds, d < 10) :
    spanDigits (ds.map utod ++ ['Z']) = (ds, ['Z']) := by
  induction ds with
  | nil => rfl
  | cons d ds ih =>
    have hd := digitValue_utod d (h d (List.mem_cons_self _ _))
    have ih' := ih (fun x hx => h x (List.mem_cons_of_mem _ hx))
    simp only [List.map_cons, List.cons_append, spanDigits, hd, List.append_eq, ih']

theorem trimZeros_mem (ds : List Nat) : ∀ d ∈ trimZeros ds, d ∈ ds := by
  induction ds with
  | nil => intro d hd; simp [trimZeros] at hd
  | cons x ds ih =>
    intro d hd
    simp only [trimZeros] at hd
    split at hd
    · simp at hd
    · simp only [List.mem_cons] at hd ⊢
      rcases hd with hd | hd
      · exact Or.inl hd
      · exact Or.inr (ih d hd)

theorem trimZeros_length (ds : List Nat) : (trimZeros ds).length ≤ ds.length := by
  induction ds with
  | nil => simp [trimZeros]
  | cons x ds ih =>
    simp only [trimZeros]
    split
    · simp
    · simp only [List.length_cons]; omega

theorem fracValue_nil_of_trim (ds : List Nat) (h : trimZeros ds = []) :
    ∀ k, fracValue k ds = 0 := by
  induction ds with
  | nil => intro k; cases k <;> rfl
  | cons x ds ih =>
    intro k
    simp only [trimZeros] at h
    split at h
    · rename_i hc
      simp only [Bool.and_eq_true, List.isEmpty_iff, beq_iff_eq] at hc
      cases k with
      | zero => rfl
      | succ k => simp [fracValue, hc.2, ih hc.1 k]
    · simp at h

theorem fracValue_trimZeros (ds : List Nat) : ∀ k, fracValue k (trimZeros ds) = fracValue k ds := by
  induction ds with
  | nil => intro k; rfl
  | cons x ds ih =>
    intro k
    simp only [trimZeros]
    split
    · rename_i hc
      simp only [Bool.and_eq_true, List.isEmpty_iff, beq_iff_eq] at hc
      cases k with
      | zero => rfl
      | succ k => simp [fracValue, hc.2, fracValue_nil_of_trim ds hc.1 k]
    · cases k with
      | zero => rfl
      | succ k => simp [fracValue, ih k]

theorem trimZeros_getLast (ds : List Nat) : (trimZeros ds).getLast? ≠ some 0 := by
  induction ds with
  | nil => simp [trimZeros]
  | cons x ds ih =>
    simp only [trimZeros]
    split
    · simp
    · rename_i hc
      simp only [Bool.and_eq_true, List.isEmpty_iff, beq_iff_eq, not_and] at hc
      cases ht : trimZeros ds with
      | nil =>
        have := hc ht
        simp [this]
      | cons y ys =>
        rw [ht] at ih
        simpa [List.getLast?_cons_cons] using ih

theorem readFraction_appendNano (n : Nat) (h : n < 1000000000) :
    readFraction (appendNano n ++ ['Z']) = some (n, ['Z']) := by
  by_cases h0 : n = 0
  · subst h0; rfl
  · have hl : digitsLen n ≤ 9 := digitsLenAux_le n 8 n (by norm_num; exact h)
    have hlt : ∀ d ∈ trimZeros (digitsFixed 9 n), d < 10 :=
      fun d hd => digitsFixed_lt 9 n d (trimZeros_mem _ d hd)
    have hval : fracValue 9 (trimZeros (digitsFixed 9 n)) = n := by
      rw [fracValue_trimZeros, fracValue_digitsFixed]
      exact Nat.mod_eq_of_lt (by norm_num; exact h)
    have hne : trimZeros (digitsFixed 9 n) ≠ [] := by
      intro hnil
      rw [hnil] at hval
      exact h0 hval.symm
    have hlen : (trimZeros (digitsFixed 9 n)).length ≤ 9 := by
      have := trimZeros_length (digitsFixed 9 n)
      simpa [digitsFixed] using this
    simp only [appendNano, h0, if_false, max_eq_left hl, List.cons_append, readFraction,
      if_true, spanDigits_digits _ hlt, hval]
    rw [if_pos ⟨hne, hlen, trimZeros_getLast _⟩]

theorem expect_cons (c : Char) (cs : List Char) : expect c (c :: cs) = some cs := by
  simp [expect]

theorem readDigits_appendInt (u w : Nat) (h : u < 10 ^ (w + 1)) (rest : List Char) :
    readDigits (w + 1) (appendInt (u : Int) (w + 1) ++ rest) = some (u, rest) := by
  rw [appendInt_nat u w h, readDigits_digitsFixed, Nat.mod_eq_of_lt h]

theorem parse_layout (c : Civil) (hv : c.valid) (hy0 : 0 ≤ c.year) (hy1 : c.year ≤ 9999) :
    parseRFC3339UTC c.layout = some c := by
  obtain ⟨year, month, day, hour, minute, second, nano⟩ := c
  obtain ⟨h1, h2, h3, h4, h5, h6, h7, h8⟩ := hv
  simp only at h1 h2 h3 h4 h5 h6 h7 h8 hy0 hy1
  obtain ⟨y, rfl⟩ := Int.eq_ofNat_of_zero_le hy0
  have hd : day ≤ 31 := by
    refine le_trans h4 ?_
    unfold daysInMonth monthLength
    split <;> (try split) <;> omega
  have e1 := readDigits_appendInt y 3 (by norm_num; omega)
  have e2 := readDigits_appendInt month 1 (by norm_num; omega)
  have e3 := readDigits_appendInt day 1 (by norm_num; omega)
  have e4 := readDigits_appendInt hour 1 (by norm_num; omega)
  have e5 := readDigits_appendInt minute 1 (by norm_num; omega)
  have e6 := readDigits_appendInt second 1 (by norm_num; omega)
  have e7 := readFraction_appendNano nano h8
  simp only [Nat.reduceAdd] at e1 e2 e3 e4 e5 e6
  simp only [parseRFC3339UTC, Civil.layout, Nat.cast_ofNat, bind, Option.bind, e1, e2, e3, e4,
    e5, e6, e7, expect_cons]

/-- The string `formatUTC` gives reads back, by the RFC 3339 reader, as fields of a date and
time of day that name the instant of the timestamp. -/
theorem formatUTC_reads_back (t : Time) (hn : t.nsec < 1000000000)
    (hy0 : 0 ≤ t.civilUTC.year) (hy1 : t.civilUTC.year ≤ 9999) :
    ∃ c, parseRFC3339UTC (formatUTC t).toList = some c ∧ c.valid ∧
      c.unixSeconds = t.sec ∧ c.nano = t.nsec := by
  obtain ⟨hv, hs, hnano⟩ := civilUTC_spec t hn
  exact ⟨t.civilUTC, parse_layout _ hv hy0 hy1, hv, hs, hnano⟩

/-! ## The field normalizer -/

theorem ReplaceAttr_normalizeSpec (groups : List String) (a : Attr) :
    (ReplaceAttr groups a).toOption = normalizeSpec a ∧
    ∀ r, ReplaceAttr groups a = .ok r → r.1 ≠ "level" ∧ r.1 ≠ "msg" := by
  obtain ⟨k, v⟩ := a
  by_cases h1 : k = "level"
  · subst h1
    have h : ReplaceAttr groups ("level", v) = .ok ("severity", v) := rfl
    refine ⟨by rw [h]; rfl, fun r hr => ?_⟩
    rw [h] at hr
    cases hr
    exact ⟨(by decide : ("severity" : String) ≠ "level"), (by decide : ("severity" : String) ≠ "msg")⟩
  · by_cases h2 : k = "msg"
    · subst h2
      have h : ReplaceAttr groups ("msg", v) = .ok ("message", v) := rfl
      refine ⟨by rw [h]; rfl, fun r hr => ?_⟩
      rw [h] at hr
      cases hr
      exact ⟨(by decide : ("message" : String) ≠ "level"), (by decide : ("message" : String) ≠ "msg")⟩
    · by_cases h3 : k = "time"
      · subst h3
        cases v with
        | time t =>
          have h : ReplaceAttr groups ("time", .time t) =
              .ok ("time", .string (formatUTC t)) := rfl
          refine ⟨by rw [h]; rfl, fun r hr => ?_⟩
          rw [h] at hr
          cases hr
          exact ⟨(by decide : ("time" : String) ≠ "level"), (by decide : ("time" : String) ≠ "msg")⟩
        | string x =>
          have h : ReplaceAttr groups ("time", .string x) =
              .error (.typeAssertion "time.Time") := rfl
          exact ⟨by rw [h]; rfl, fun r hr => by rw [h] at hr; cases hr⟩
        | int n =>
          have h : ReplaceAttr groups ("time", .int n) =
              .error (.typeAssertion "time.Time") := rfl
          exact ⟨by rw [h]; rfl, fun r hr => by rw [h] at hr; cases hr⟩
        | level l =>
          have h : ReplaceAttr groups ("time", .level l) =
              .error (.typeAssertion "time.Time") := rfl
          exact ⟨by rw [h]; rfl, fun r hr => by rw [h] at hr; cases hr⟩
        | other d =>
          have h : ReplaceAttr groups ("time", .other d) =
              .error (.typeAssertion "time.Time") := rfl
          exact ⟨by rw [h]; rfl, fun r hr => by rw [h] at hr; cases hr⟩
        | group members =>
          have h : ReplaceAttr groups ("time", .group members) =
              .error (.typeAssertion "time.Time") := rfl
          exact ⟨by rw [h]; rfl, fun r hr => by rw [h] at hr; cases hr⟩
      · rw [ReplaceAttr_plain groups k v h1 h2 h3]
        refine ⟨?_, ?_⟩
        · simp [normalizeSpec, h1, h2, h3, Except.toOption]
        · intro r hr
          cases hr
          exact ⟨h1, h2⟩


theorem fieldsClean_append (xs ys : List (String × Value)) :
    fieldsClean (xs ++ ys) = (fieldsClean xs && fieldsClean ys) := by
  induction xs with
  | nil => simp [fieldsClean]
  | cons x rest ih =>
    obtain ⟨k, v⟩ := x
    simp only [List.cons_append, fieldsClean, List.append_eq, ih, Bool.and_assoc]

theorem ReplaceAttr_leaf_clean (groups : List String) (key : String) (v : Value) (r : Attr)
    (hv : ∀ members, v ≠ .group members) (h : ReplaceAttr groups (key, v) = .ok r) :
    fieldClean r.1 r.2 = true := by
  have hk := (ReplaceAttr_normalizeSpec groups (key, v)).2 r h
  have hval : ∀ members, r.2 ≠ .group members := by
    have hs := (ReplaceAttr_normalizeSpec groups (key, v)).1
    rw [h] at hs
    simp only [Except.toOption, normalizeSpec] at hs
    split at hs
    · cases hs; exact hv
    · split at hs
      · cases hs; exact hv
      · split at hs
        · split at hs
          · cases hs; intro members hm; cases hm
          · cases hs
        · cases hs; exact hv
  obtain ⟨k1, v1⟩ := r
  cases v1 with
  | group members => exact absurd rfl (hval members)
  | string s => simp [fieldClean, hk.1, hk.2]
  | int n => simp [fieldClean, hk.1, hk.2]
  | time t => simp [fieldClean, hk.1, hk.2]
  | level l => simp [fieldClean, hk.1, hk.2]
  | other d => simp [fieldClean, hk.1, hk.2]

mutual
theorem appendAttr_clean : ∀ (groups : List String) (key : String) (v : Value)
    (fields : List Attr), appendAttr groups key v = .ok fields → fieldsClean fields = true
  | groups, key, .group members, fields, h => by
    simp only [appendAttr] at h
    cases hin : appendAttrs (if key = "" then groups else groups ++ [key]) members with
    | error e => rw [hin] at h; cases h
    | ok inner =>
      rw [hin] at h
      have hc := appendAttrs_clean _ members inner hin
      simp only [bind, Except.bind, pure, Except.pure, Except.ok.injEq] at h
      subst h
      split
      · rfl
      · split
        · exact hc
        · simp [fieldsClean, fieldClean, hc]
  | groups, key, .string s, fields, h => by
    simp only [appendAttr] at h
    cases hr : ReplaceAttr groups (key, .string s) with
    | error e => rw [hr] at h; cases h
    | ok r =>
      rw [hr] at h
      cases h
      simp [fieldsClean, ReplaceAttr_leaf_clean groups key _ r (by intro m hm; cases hm) hr]
  | groups, key, .int n, fields, h => by
    simp only [appendAttr] at h
    cases hr : ReplaceAttr groups (key, .int n) with
    | error e => rw [hr] at h; cases h
    | ok r =>
      rw [hr] at h
      cases h
      simp [fieldsClean, ReplaceAttr_leaf_clean groups key _ r (by intro m hm; cases hm) hr]
  | groups, key, .time t, fields, h => by
    simp only [appendAttr] at h
    cases hr : ReplaceAttr groups (key, .time t) with
    | error e => rw [hr] at h; cases h
    | ok r =>
      rw [hr] at h
      cases h
      simp [fieldsClean, ReplaceAttr_leaf_clean groups key _ r (by intro m hm; cases hm) hr]
  | groups, key, .level l, fields, h => by
    simp only [appendAttr] at h
    cases hr : ReplaceAttr groups (key, .level l) with
    | error e => rw [hr] at h; cases h
    | ok r =>
      rw [hr] at h
      cases h
      simp [fieldsClean, ReplaceAttr_leaf_clean groups key _ r (by intro m hm; cases hm) hr]
  | groups, key, .other d, fields, h => by
    simp only [appendAttr] at h
    cases hr : ReplaceAttr groups (key, .other d) with
    | error e => rw [hr] at h; cases h
    | ok r =>
      rw [hr] at h
      cases h
      simp [fieldsClean, ReplaceAttr_leaf_clean groups key _ r (by intro m hm; cases hm) hr]
theorem appendAttrs_clean : ∀ (groups : List String) (attrs : List (String × Value))
    (fields : List Attr), appendAttrs groups attrs = .ok fields → fieldsClean fields = true
  | _, [], fields, h => by
    simp only [appendAttrs, pure, Except.pure, Except.ok.injEq] at h
    subst h
    rfl
  | groups, (k, v) :: rest, fields, h => by
    simp only [appendAttrs] at h
    cases hx : appendAttr groups k v with
    | error e => rw [hx] at h; cases h
    | ok x =>
      cases hy : appendAttrs groups rest with
      | error e => rw [hx, hy] at h; cases h
      | ok y =>
        rw [hx, hy] at h
        simp only [bind, Except.bind, pure, Except.pure, Except.ok.injEq] at h
        subst h
        rw [fieldsClean_append, appendAttr_clean groups k v x hx,
          appendAttrs_clean groups rest y hy]
        rfl
end

theorem Handle_clean (l : slog.Logger) (hpre : fieldsClean l.preformatted = true) (now : Time)
    (level : Int) (msg : String) (attrs : List Attr) (line : Record)
    (h : l.Handle now level msg attrs = .ok line) : fieldsClean line = true := by
  rw [Handle_eq] at h
  cases hr : appendAttrs [] attrs with
  | error e => rw [hr] at h; cases h
  | ok rest =>
    rw [hr] at h
    cases h
    have hb : fieldsClean (builtins now level msg) = true := rfl
    rw [fieldsClean_append, fieldsClean_append, hb, hpre, appendAttrs_clean [] attrs rest hr]
    rfl

theorem slogLog_handled (l : slog.Logger) (now : Time) (level : Int) (msg : String)
    (args : List Arg) (out : List Record) :
    (∃ e, l.Log now level msg args out = .error e) ∨
    l.Log now level msg args out = .ok out ∨
    ∃ line, l.Handle now level msg (argsToAttrs args) = .ok line ∧
      l.Log now level msg args out = .ok (out ++ [line]) := by
  unfold slog.Logger.Log
  cases l.Enabled level with
  | false => right; left; rfl
  | true =>
    cases h : l.Handle now level msg (argsToAttrs args) with
    | error e => left; exact ⟨e, rfl⟩
    | ok line => right; right; exact ⟨line, rfl, rfl⟩

/-- Every line a call appends is a line the handler of the logger built. -/
theorem exec_handled (c : Call) (s : State) :
    ∃ recs, (c.exec s).state.stdout = s.stdout ++ recs ∧
      ∀ r ∈ recs, ∃ now level msg attrs, s.logger.Logger.Handle now level msg attrs = .ok r := by
  have conv : ∀ (level : Int) (now : Time) (msg : String) (args : List Arg),
      ∃ recs, (OrderedLogger.convenience level now msg args s).state.stdout = s.stdout ++ recs ∧
        ∀ r ∈ recs, ∃ now level msg attrs,
          s.logger.Logger.Handle now level msg attrs = .ok r := by
    intro level now msg args
    unfold OrderedLogger.convenience
    rcases slogLog_handled s.logger.Logger now level msg
      (args ++ [Arg.attr (slog.Int "order_index" s.logger.Counter)]) s.stdout with
      ⟨e, h⟩ | h | ⟨line, hl, h⟩
    · rw [h]; exact ⟨[], by simp, by simp⟩
    · rw [h]; exact ⟨[], by simp [increment, State.bump], by simp⟩
    · rw [h]
      refine ⟨[line], rfl, ?_⟩
      intro r hr
      simp only [List.mem_singleton] at hr
      subst hr
      exact ⟨now, level, msg, _, hl⟩
  cases c with
  | Log now level msg attrs =>
    have h : ∃ recs, (OrderedLogger.Log now level msg attrs s).state.stdout = s.stdout ++ recs ∧
        ∀ r ∈ recs, ∃ now level msg attrs,
          s.logger.Logger.Handle now level msg attrs = .ok r := by
      unfold OrderedLogger.Log
      rcases slogLog_handled s.bump.logger.Logger now level msg
        ((attrs ++ [slog.Int "order_index" s.bump.logger.Counter]).map Arg.attr)
        s.bump.stdout with ⟨e, h⟩ | h | ⟨line, hl, h⟩
      · simp only [h]; exact ⟨[], by simp [State.bump], by simp⟩
      · simp only [h]; exact ⟨[], by simp [State.bump], by simp⟩
      · simp only [h]
        refine ⟨[line], rfl, ?_⟩
        intro r hr
        simp only [List.mem_singleton] at hr
        subst hr
        exact ⟨now, level, msg, _, hl⟩
    exact h
  | Debug now msg args => exact conv LevelDebug now msg args
  | Info now msg args => exact conv LevelInfo now msg args
  | Warn now msg args => exact conv LevelWarn now msg args
  | Error now msg args => exact conv LevelError now msg args

theorem run_handled (calls : List Call) : ∀ (s : State),
    ∃ recs, (run calls s).state.stdout = s.stdout ++ recs ∧
      ∀ r ∈ recs, ∃ now level msg attrs, s.logger.Logger.Handle now level msg attrs = .ok r := by
  induction calls with
  | nil => intro s; exact ⟨[], by simp [run], by simp⟩
  | cons c rest ih =>
    intro s
    obtain ⟨recs1, c2, c3⟩ := exec_handled c s
    have c1 := (exec_shape c s).1
    rw [run_cons]
    by_cases hp : (c.exec s).panic = none
    · rw [if_pos hp]
      obtain ⟨recs, h2, h3⟩ := ih (c.exec s).state
      refine ⟨recs1 ++ recs, by rw [h2, c2, List.append_assoc], ?_⟩
      intro r hr
      rcases List.mem_append.mp hr with hr | hr
      · exact c3 r hr
      · rw [c1] at h3
        exact h3 r hr
    · rw [if_neg hp]
      exact ⟨recs1, c2, c3⟩

/-- C9 (amended): on every attribute and under every group path, `ReplaceAttr` gives the result
of the reference definition `normalizeSpec` where that gives one, and has no result where the
reference definition gives none; no attribute it returns has the key `level` or `msg`. In every
line written by calls on a logger that `InitLogger` built, no field that is not a group, at any
depth, has the key `level` or `msg` (a group is written under its own key, `ReplaceAttr` is not
called for it). The string put under `time` is the RFC 3339 rendering in UTC: for a timestamp
whose year in UTC is 0 to 9999 it reads back, by the grammar of RFC 3339 with the designator
`Z` and the shortest fraction, as the date and time of day of that very instant; it does not
depend on the location of the timestamp, and it has the values of the library on the samples
given. -/
theorem ReplaceAttr_refines_normalizeSpec :
    (∀ (groups : List String) (a : Attr),
      (ReplaceAttr groups a).toOption = normalizeSpec a ∧
      ∀ r, ReplaceAttr groups a = .ok r → r.1 ≠ "level" ∧ r.1 ≠ "msg") ∧
    (∀ (request : Request) (l : OrderedLogger), InitLogger request = .ok l →
      ∀ (calls : List Call) (out0 : List Record),
        ∃ lines, (run calls { logger := l, stdout := out0 }).state.stdout = out0 ++ lines ∧
          ∀ line ∈ lines, fieldsClean line = true) ∧
    (∀ t : Time, t.nsec < 1000000000 → 0 ≤ t.civilUTC.year → t.civilUTC.year ≤ 9999 →
      ∃ c, parseRFC3339UTC (formatUTC t).toList = some c ∧ c.valid ∧
        c.unixSeconds = t.sec ∧ c.nano = t.nsec) ∧
    (∀ (t : Time) (offset : Int), formatUTC { t with offset := offset } = formatUTC t) ∧
    formatUTC { sec := 0, nsec := 0, offset := 0 } = "1970-01-01T00:00:00Z" ∧
    formatUTC { sec := 1000000000, nsec := 120000000, offset := 3600 }
      = "2001-09-09T01:46:40.12Z" ∧
    formatUTC { sec := 1709210096, nsec := 999999999, offset := -18000 }
      = "2024-02-29T12:34:56.999999999Z" ∧
    formatUTC { sec := -1, nsec := 1, offset := 0 } = "1969-12-31T23:59:59.000000001Z" ∧
    formatUTC { sec := 4107542400, nsec := 500, offset := 0 } = "2100-03-01T00:00:00.0000005Z" ∧
    formatUTC { sec := 253402300800, nsec := 0, offset := 0 } = "10000-01-01T00:00:00Z" := by
  refine ⟨fun groups a => ReplaceAttr_normalizeSpec groups a, ?_, ?_, fun _ _ => rfl,
    by decide, by decide, by decide, by decide, by decide, by decide⟩
  · intro request l hl calls out0
    rw [InitLogger_eq] at hl
    cases hl
    obtain ⟨lines, h1, h2⟩ :=
      run_handled calls { logger := freshLogger request, stdout := out0 }
    refine ⟨lines, h1, ?_⟩
    intro line hline
    obtain ⟨now, level, msg, attrs, hh⟩ := h2 line hline
    have hpre : fieldsClean (freshLogger request).Logger.preformatted = true := rfl
    exact Handle_clean _ hpre now level msg attrs line hh
  · intro t hn hy0 hy1
    exact formatUTC_reads_back t hn hy0 hy1

/-- Witness of `ReplaceAttr_refines_normalizeSpec`: the logger of `sampleRequest`, a warn call
with a caller attribute keyed `level`, and the timestamp 2001-09-09T01:46:40.12Z. -/
theorem ReplaceAttr_refines_normalizeSpec_witness :
    (ReplaceAttr [] ("level", .level LevelWarn)).toOption = some ("severity", .level LevelWarn) ∧
    (∃ lines, (run [Call.Warn epoch "x" [Arg.str "level", Arg.val (.int 3)]]
        { logger := sampleLogger, stdout := [] }).state.stdout = [] ++ lines ∧
      ∀ line ∈ lines, fieldsClean line = true) ∧
    ∃ c, parseRFC3339UTC
        (formatUTC { sec := 1000000000, nsec := 120000000, offset := 3600 }).toList = some c ∧
      c.valid ∧ c.unixSeconds = 1000000000 ∧ c.nano = 120000000 :=
  ⟨(ReplaceAttr_refines_normalizeSpec.1 [] ("level", .level LevelWarn)).1,
   ReplaceAttr_refines_normalizeSpec.2.1 sampleRequest sampleLogger rfl
     [Call.Warn epoch "x" [Arg.str "level", Arg.val (.int 3)]] [],
   ReplaceAttr_refines_normalizeSpec.2.2.1
     { sec := 1000000000, nsec := 120000000, offset := 3600 } (by decide) (by decide)
     (by decide)⟩

/-- C9, counterexample: on the logger `InitLogger` builds, an `Info` call with a group attribute
keyed `level`, and one with a group attribute keyed `msg`, return and write a line that has a
field with that key: `ReplaceAttr` is not called for a group. -/
theorem group_keeps_reserved_key :
    InitLogger sampleRequest = .ok sampleLogger ∧
    (OrderedLogger.Info epoch "m" [Arg.attr ("level", .group [("a", .int 1)])]
      { logger := sampleLogger, stdout := [] }).panic = none ∧
    (OrderedLogger.Info epoch "m" [Arg.attr ("level", .group [("a", .int 1)])]
      { logger := sampleLogger, stdout := [] }).state.stdout.map (fun r => r.map Prod.fst) =
        [["time", "severity", "message", "session_id", "test_id", "request_id", "level",
          "order_index"]] ∧
    (OrderedLogger.Info epoch "m" [Arg.attr ("msg", .group [("a", .int 1)])]
      { logger := sampleLogger, stdout := [] }).state.stdout.map (fun r => r.map Prod.fst) =
        [["time", "severity", "message", "session_id", "test_id", "request_id", "msg",
          "order_index"]] :=
  ⟨rfl, by decide, by decide, by decide⟩

/-- C10, the failing input: on an attribute with the key `time` whose value is not a timestamp
(here the string `noon`), at top level or inside a group, `ReplaceAttr` panics in its
one-result type assertion; so an `Info` call with the arguments `"time", "noon"` on the logger
`InitLogger` builds panics and writes nothing. -/
theorem ReplaceAttr_panics_on_time_string :
    ReplaceAttr [] ("time", .string "noon") = .error (.typeAssertion "time.Time") ∧
    ReplaceAttr ["request"] ("time", .int 12) = .error (.typeAssertion "time.Time") ∧
    InitLogger sampleRequest = .ok sampleLogger ∧
    (OrderedLogger.Info epoch "x" [Arg.str "time", Arg.str "noon"]
      { logger := sampleLogger, stdout := [] }).panic = some (.typeAssertion "time.Time") ∧
    (OrderedLogger.Info epoch "x" [Arg.str "time", Arg.str "noon"]
      { logger := sampleLogger, stdout := [] }).state.stdout.length = 0 :=
  ⟨rfl, rfl, rfl, by decide, by decide⟩

end BodeLogger
